import Mathlib

/-!
scroblarr: session store, action policy and per-tick fan-out.

A shallow embedding of `internal/types/types.go` (the session store), of
`internal/scrobble/scrobble.go` (`getAction`, `Sync.sync`, `Sync.syncToTrakt`,
`Sync.scrobble`, `New`), of `pkg/request/request.go` (`New`, the options, `Do`), of
`Config.Validate` of `internal/config/config.go` and of `CalculateProgress` of
`pkg/misc/misc.go`, followed by the properties proved about them.

Modelling conventions.
* Go `string` is `String`, Go `int` and `int64` are `Int` (no arithmetic is done on them here).
* Go `float64` is `Float64` below: NaN, the two infinities, or a finite value carried as a
  rational. Every finite float64 is a rational, so a statement proved for all `Float64`
  holds for all float64 values; the tick only compares `Progress` with 90 and assigns 100.
  The arithmetic of `CalculateProgress` is exact arithmetic followed by `misc.round64`,
  rounding to the nearest float64.
* Go `map[string]MediaSession` is a list of key/value entries. A Go map never holds a key
  twice; iteration order of a Go map is unspecified, the order of the list stands for the
  order one particular `range` happened to take.
* Calls on collaborators (`target.Scrobble`, `trakt.Scrobble`, the logger) are recorded as
  events of a trace; whether a `Scrobble` call fails is read from an outcome function that
  is given the number of `Scrobble` calls made before it in the tick.
* `time.Duration` is int64 nanoseconds: an `Int` that is wrapped to 64 bits after every
  addition and multiplication (`request.wrap64`), divided with truncation as Go does.
* The `select` of the poll loop takes its cases from a list of signals (`Signal`);
  `time.NewTicker` panics on an interval that is not positive.
* What `Do` meets outside itself (rate limiter, transport, cancellation of the context, the
  random generator) is a `request.Env`; `rand.Int63n` panics on a bound that is not positive.
-/

namespace Scroblarr

/-! ## float64 -/

/-- Values of Go's `float64`, as seen by comparison and assignment of constants. -/
inductive Float64 where
  | nan
  | negInf
  | posInf
  | finite (q : ℚ)
  deriving DecidableEq

namespace Float64

/-- Go's `x > y` on float64: false as soon as one side is NaN. -/
def gt : Float64 → Float64 → Bool
  | nan, _ => false
  | _, nan => false
  | negInf, _ => false
  | posInf, posInf => false
  | posInf, _ => true
  | finite _, negInf => true
  | finite _, posInf => false
  | finite a, finite b => decide (b < a)

/-- Go's `x <= y` on float64: false as soon as one side is NaN. -/
def le : Float64 → Float64 → Bool
  | nan, _ => false
  | _, nan => false
  | negInf, _ => true
  | posInf, posInf => true
  | posInf, _ => false
  | finite _, negInf => false
  | finite _, posInf => true
  | finite a, finite b => decide (a ≤ b)

/-- The float64 constant written `n` in the source (`90`, `100`). -/
def ofNat (n : Nat) : Float64 := finite (n : ℚ)

end Float64

/-! ## types.go -/

/-- The struct `User`. -/
structure User where
  ID : String
  Username : String
  deriving DecidableEq

/-- The struct `MediaSession`: one playback session (`Type_` is the field `Type`, a
reserved word here). -/
structure MediaSession where
  SessionID : String
  Title : String
  Year : Int
  Type_ : String
  State : String
  Progress : Float64
  Duration : Int
  ViewOffset : Int
  IMDBID : String
  TVDBID : String
  SeasonNum : Int
  EpisodeNum : Int
  ShowTitle : String
  EpisodeTitle : String
  ViewedAt : Int
  User : Scroblarr.User
  Source : String
  LibraryID : String
  LibraryName : String
  LibraryType : String
  deriving DecidableEq

/-- Go's zero value of `MediaSession`, what a map read of an absent key yields. -/
def MediaSession.zero : MediaSession :=
  { SessionID := "", Title := "", Year := 0, Type_ := "", State := "",
    Progress := Float64.ofNat 0, Duration := 0, ViewOffset := 0, IMDBID := "", TVDBID := "",
    SeasonNum := 0, EpisodeNum := 0, ShowTitle := "", EpisodeTitle := "", ViewedAt := 0,
    User := { ID := "", Username := "" }, Source := "", LibraryID := "", LibraryName := "",
    LibraryType := "" }

/-- Function `GetHistoryKey`: `fmt.Sprintf("%s-%s-%s", Type, ShowTitle, EpisodeTitle)`. -/
def GetHistoryKey (session : MediaSession) : String :=
  session.Type_ ++ "-" ++ session.ShowTitle ++ "-" ++ session.EpisodeTitle

/-- Go's `v, ok := m[key]` on the entries of a map. -/
def mapLookup (key : String) : List (String × MediaSession) → Option MediaSession
  | [] => none
  | (k, v) :: rest => if k = key then some v else mapLookup key rest

/-- Go's `m[key] = v`: the entry of `key` is overwritten where it is, a new key gets a
new entry. -/
def mapAssign (key : String) (v : MediaSession) :
    List (String × MediaSession) → List (String × MediaSession)
  | [] => [(key, v)]
  | (k, w) :: rest => if k = key then (key, v) :: rest else (k, w) :: mapAssign key v rest

/-- Go's `delete(m, key)`. -/
def mapDelete (key : String) (m : List (String × MediaSession)) :
    List (String × MediaSession) :=
  m.filter (fun e => decide (e.1 ≠ key))

/-- The struct `MediaSessionHistory`; the lock is left out, calls are sequential here. -/
structure MediaSessionHistory where
  sessions : List (String × MediaSession)
  deriving DecidableEq

/-- Function `NewMediaSessionHistory`: a store with an empty map. -/
def NewMediaSessionHistory : MediaSessionHistory := { sessions := [] }

namespace MediaSessionHistory

/-- Method `Get`: the stored session and `true`, or the zero value and `false`. -/
def Get (h : MediaSessionHistory) (key : String) : MediaSession × Bool :=
  match mapLookup key h.sessions with
  | some session => (session, true)
  | none => (MediaSession.zero, false)

/-- Method `Set`: `h.sessions[GetHistoryKey(session)] = session`. -/
def Set (h : MediaSessionHistory) (session : MediaSession) : MediaSessionHistory :=
  { sessions := mapAssign (GetHistoryKey session) session h.sessions }

/-- Method `Delete`: `delete(h.sessions, key)`. -/
def Delete (h : MediaSessionHistory) (key : String) : MediaSessionHistory :=
  { sessions := mapDelete key h.sessions }

/-- Method `GetAll`: the stored sessions, one per entry, in the order of the `range`. -/
def GetAll (h : MediaSessionHistory) : List MediaSession :=
  h.sessions.map (fun e => e.2)

/-- Method `Clear`: the map is replaced by an empty one. -/
def Clear (_h : MediaSessionHistory) : MediaSessionHistory := { sessions := [] }

/-- The loop of `SetMany` over the rest of the slice, on the map. -/
def setManyLoop : List MediaSession → List (String × MediaSession) →
    List (String × MediaSession)
  | [], m => m
  | session :: rest, m => setManyLoop rest (mapAssign (GetHistoryKey session) session m)

/-- Method `SetMany`: one assignment per session of the slice, in order. -/
def SetMany (h : MediaSessionHistory) (sessions : List MediaSession) : MediaSessionHistory :=
  { sessions := setManyLoop sessions h.sessions }

/-- The keys of the map. -/
def keys (h : MediaSessionHistory) : List String := h.sessions.map (fun e => e.1)

/-- What the methods of the store keep true of the private map: no key twice (it is a
map) and every session filed under its own identity key (all writes go through
`GetHistoryKey`). -/
def WF (h : MediaSessionHistory) : Prop :=
  h.keys.Nodup ∧ ∀ e ∈ h.sessions, e.1 = GetHistoryKey e.2

instance (h : MediaSessionHistory) : Decidable h.WF := by
  unfold WF; infer_instance

end MediaSessionHistory

/-! ## scrobble.go -/

/-- Function `getAction`: the `switch` on `session.State`. -/
def getAction (session : MediaSession) : String :=
  if session.State = "playing" then "start"
  else if session.State = "paused" then "pause"
  else if session.State = "stopped" then
    (if Float64.gt session.Progress (Float64.ofNat 90) = true then "stop" else "pause")
  else "start"

/-- What a tick does to the outside: a `Scrobble` call on a target (named by its
`GetName`), a `Scrobble` call on the Trakt client, or a line of the log. -/
inductive Event where
  | targetScrobble (target : String) (session : MediaSession) (action : String)
  | traktScrobble (session : MediaSession) (action : String)
  | logError (target : String)
  | logTrace (target : String) (action : String) (title : String) (progress : Float64)
  deriving DecidableEq

/-- The struct `Sync`: servers are named by their `GetName`, `trakt` says whether the
field `trakt` is non-nil, `interval` is in nanoseconds; the logger is the trace. -/
structure Sync where
  source : String
  targets : List String
  trakt : Bool
  interval : Int
  sessions : MediaSessionHistory
  deriving DecidableEq

/-- Method `Sync.syncToTrakt`, as call number `n` of the tick; `session` is passed by value. -/
def syncToTrakt (fails : Nat → Bool) (n : Nat) (session : MediaSession) : List Event :=
  let action := getAction session
  let session := if action = "stop" ∧ Float64.gt session.Progress (Float64.ofNat 90) = true
    then { session with Progress := Float64.ofNat 100 } else session
  [Event.traktScrobble session action,
    if fails n = true then Event.logError "trakt"
    else Event.logTrace "trakt" action session.Title session.Progress]

/-- The inner loop of `Sync.sync`, `for _, target := range s.targets`, from call number
`n` on; the assignment to `session.Progress` stays in force for the later targets. -/
def targetLoop (fails : Nat → Bool) : List String → Nat → MediaSession → List Event
  | [], _, _ => []
  | target :: rest, n, session =>
    let action := getAction session
    let session := if action = "stop" ∧ Float64.gt session.Progress (Float64.ofNat 90) = true
      then { session with Progress := Float64.ofNat 100 } else session
    Event.targetScrobble target session action ::
      (if fails n = true then Event.logError target
        else Event.logTrace target action session.Title session.Progress) ::
      targetLoop fails rest (n + 1) session

/-- The second loop of `Sync.sync`, `for _, session := range sessions`, from call number
`n` on. -/
def sessionLoop (fails : Nat → Bool) (trakt : Bool) (targets : List String) :
    List MediaSession → Nat → List Event
  | [], _ => []
  | session :: rest, n =>
    (if trakt = true then syncToTrakt fails n session else []) ++
      targetLoop fails targets (if trakt = true then n + 1 else n) session ++
      sessionLoop fails trakt targets rest ((if trakt = true then n + 1 else n) + targets.length)

/-- The first loop of `Sync.sync`, run when no session is active: the loop variable gets
`State = "stopped"` and is written to the store; the slice `sessions` is not written. -/
def stopLoop : List MediaSession → MediaSessionHistory → MediaSessionHistory
  | [], h => h
  | session :: rest, h => stopLoop rest (h.Set { session with State := "stopped" })

/-- Method `Sync.sync`: the worker after the tick and the trace of the tick. -/
def Sync.sync (fails : Nat → Bool) (s : Sync) (activeSessions : List MediaSession) :
    Sync × List Event :=
  let h := s.sessions.SetMany activeSessions
  let sessions := h.GetAll
  let h := if activeSessions.length = 0 then stopLoop sessions h else h
  ({ s with sessions := h }, sessionLoop fails s.trakt s.targets sessions 0)

/-- The `Scrobble` calls on targets in a trace, in order: target, session, action. -/
def targetCalls : List Event → List (String × MediaSession × String)
  | [] => []
  | Event.targetScrobble t x a :: rest => (t, x, a) :: targetCalls rest
  | _ :: rest => targetCalls rest

/-- The `Scrobble` calls on the Trakt client in a trace, in order: session, action. -/
def traktCalls : List Event → List (MediaSession × String)
  | [] => []
  | Event.traktScrobble x a :: rest => (x, a) :: traktCalls rest
  | _ :: rest => traktCalls rest

/-- The session as the claims say it is delivered: `Progress` is 100 when the action
of the session is "stop", every other field is kept. -/
def delivered (session : MediaSession) : MediaSession :=
  if getAction session = "stop" then { session with Progress := Float64.ofNat 100 }
  else session

/-- A movie session for the examples. -/
def movie (state : String) (progress : Nat) : MediaSession :=
  { MediaSession.zero with
    SessionID := "1", Title := "Heat", Year := 1995, Type_ := "movie", State := state,
    Progress := Float64.ofNat progress, Source := "A" }

/-- An episode session for the examples. -/
def episode (state : String) (progress : Nat) : MediaSession :=
  { MediaSession.zero with
    SessionID := "2", Title := "Pilot", Year := 2008, Type_ := "episode", State := state,
    Progress := Float64.ofNat progress, SeasonNum := 1, EpisodeNum := 1,
    ShowTitle := "Breaking Bad", EpisodeTitle := "Pilot", Source := "A" }

/-- A worker for the examples. -/
def worker (targets : List String) (trakt : Bool) (stored : List MediaSession) : Sync :=
  { source := "A", targets := targets, trakt := trakt, interval := 30000000000,
    sessions := NewMediaSessionHistory.SetMany stored }

/-! ## scrobble.go: New -/

/-- Go's `v, ok := m[key]` on the entries of a map with string keys. -/
def goLookup {α : Type} (key : String) : List (String × α) → Option α
  | [] => none
  | (k, v) :: rest => if k = key then some v else goLookup key rest

/-- Go's `m[key] = v` on the entries of a map with string keys. -/
def goAssign {α : Type} (key : String) (v : α) : List (String × α) → List (String × α)
  | [] => [(key, v)]
  | (k, w) :: rest => if k = key then (key, v) :: rest else (k, w) :: goAssign key v rest

namespace config

/-- The struct `config.Sync`: one sync group of the configuration. -/
structure Sync where
  Name : String
  Source : String
  Targets : List String
  Interval : Option String
  deriving DecidableEq

/-- The fields of the struct `config.Config` that `scrobble.New` reads. -/
structure Config where
  Interval : String
  Sync : List config.Sync
  deriving DecidableEq

end config

/-- The struct `Scrobble`: the workers by group name. -/
structure Scrobble where
  syncs : List (String × Sync)
  deriving DecidableEq

/-- The loop `for _, t := range s.Targets` of `New`, on the targets collected so far and
`skipTrakt`; `servers` gives for a name the server filed under it (a server is named by
its `GetName`), `traktClient` says whether `trakt.New()` returned a client. -/
def newTargetsLoop (servers : List (String × String)) (traktClient : Bool) (source : String) :
    List String → List String → Bool → List String × Bool
  | [], targets, skipTrakt => (targets, skipTrakt)
  | t :: rest, targets, skipTrakt =>
    if t = source then newTargetsLoop servers traktClient source rest targets skipTrakt
    else if t = "trakt" then
      (if traktClient = false then newTargetsLoop servers traktClient source rest targets true
        else newTargetsLoop servers traktClient source rest targets false)
    else
      match goLookup t servers with
      | none => newTargetsLoop servers traktClient source rest targets skipTrakt
      | some target =>
        newTargetsLoop servers traktClient source rest (targets ++ [target]) skipTrakt

/-- The body of the loop `for _, s := range cfg.Sync` of `New`: the worker of group `s`, or
`none` where the body ends in `continue`. `ParseDuration` is `time.ParseDuration`, in
nanoseconds, `none` for an error. -/
def newSync (cfgInterval : String) (ParseDuration : String → Option Int)
    (servers : List (String × String)) (traktClient : Bool) (s : config.Sync) : Option Sync :=
  match goLookup s.Source servers with
  | none => none
  | some source =>
    let r := newTargetsLoop servers traktClient s.Source s.Targets [] true
    let _interval := match s.Interval with
      | some i => i
      | none => cfgInterval
    let interval := match ParseDuration _interval with
      | some d => d
      | none => 30 * 1000000000
    some { source := source, targets := r.1,
           trakt := if r.2 = false then traktClient else false,
           interval := interval, sessions := NewMediaSessionHistory }

/-- The loop `for _, s := range cfg.Sync` of `New`, on the map `syncs`. -/
def newLoop (cfgInterval : String) (ParseDuration : String → Option Int)
    (servers : List (String × String)) (traktClient : Bool) :
    List config.Sync → List (String × Sync) → List (String × Sync)
  | [], syncs => syncs
  | s :: rest, syncs =>
    match newSync cfgInterval ParseDuration servers traktClient s with
    | none => newLoop cfgInterval ParseDuration servers traktClient rest syncs
    | some syn =>
      newLoop cfgInterval ParseDuration servers traktClient rest (goAssign s.Name syn syncs)

/-- Function `New` of scrobble.go: the `Scrobble` value and the error, which is always nil.
The configuration, `time.ParseDuration` and the result of `trakt.New()` are arguments. -/
def New (cfg : config.Config) (ParseDuration : String → Option Int) (traktClient : Bool)
    (servers : List (String × String)) : Scrobble × Option String :=
  ({ syncs := newLoop cfg.Interval ParseDuration servers traktClient cfg.Sync [] }, none)

/-- Whether a configured target name is kept: it is not the source, not "trakt", and a key
of `servers`. -/
def isKept (servers : List (String × String)) (source : String) (t : String) : Bool :=
  decide (t ≠ source ∧ t ≠ "trakt" ∧ t ∈ servers.map (fun e => e.1))

/-- The target names of a group that the claims say are kept: the configured names in
order, without those equal to the source, equal to "trakt", or not a key of `servers`. -/
def keptTargets (servers : List (String × String)) (s : config.Sync) : List String :=
  s.Targets.filter (isKept servers s.Source)

/-- The server a configured target name contributes to the target list, if any: none for
the source and for "trakt", else the server filed under the name. -/
def targetServer (servers : List (String × String)) (source : String) (t : String) :
    Option String :=
  if t = source ∨ t = "trakt" then none else goLookup t servers

/-- Two servers for the examples, filed under their names. -/
def twoServers : List (String × String) := [("A", "A"), ("B", "B")]

/-- The servers of the examples and a media server that is itself filed as "trakt". -/
def serversWithTrakt : List (String × String) := [("A", "A"), ("B", "B"), ("trakt", "T")]

/-- A sync group for the examples, named "g", with source "A". -/
def group (targets : List String) : config.Sync :=
  { Name := "g", Source := "A", Targets := targets, Interval := none }

/-- A `time.ParseDuration` for the examples: it knows "10s" and "1m" only. -/
def parseExample (text : String) : Option Int :=
  if text = "10s" then some 10000000000 else if text = "1m" then some 60000000000 else none

/-! ## request.go -/

namespace request

/-- Go's int64 arithmetic: the result of an operation, wrapped to 64 bits two's complement. -/
def wrap64 (x : Int) : Int := (x + 2 ^ 63) % 2 ^ 64 - 2 ^ 63

/-- What `Do` reads of an `*http.Response`. -/
structure Response where
  StatusCode : Int
  Body : String
  deriving DecidableEq

/-- What `Do` reads of an `*http.Request`: no body, or a body whose `io.ReadAll` gives an
error or the bytes. -/
structure Request where
  Body : Option (Except String String)

/-- The errors `Do` returns. -/
inductive Error where
  | readingRequestBody (cause : String)
  | rateLimiterWait (cause : String)
  | transport (cause : String)
  | context
  | maxRetriesExceeded
  deriving DecidableEq

/-- How a call of `Do` ends: `(resp, nil)`, `(nil, err)`, a panic of `rand.Int63n`; the last
one is for a loop model that is given too few iterations. -/
inductive Outcome where
  | ok (resp : Response)
  | err (e : Error)
  | panicked
  | outOfFuel
  deriving DecidableEq

/-- A call of `Do` as seen from outside: how it ends, how many times the transport
(`c.client.Do`) was invoked, and the durations slept, in nanoseconds, in order. -/
structure DoResult where
  outcome : Outcome
  calls : Nat
  sleeps : List Int
  deriving DecidableEq

/-- The struct `Client`: `rateLimiter` says whether the limiter is non-nil,
`retryableStatus` lists the keys of the map (every value stored in it is `true`); the
`http.Client` is the environment below, the logger is left out. -/
structure Client where
  rateLimiter : Bool
  headers : Option (List (String × String))
  maxRetries : Int
  timeout : Int
  skipTLSVerify : Bool
  retryableStatus : List Int
  deriving DecidableEq

/-- The type `ClientOption`. -/
abbrev ClientOption := Client → Client

/-- Function `WithMaxRetries`. -/
def WithMaxRetries (retries : Int) : ClientOption :=
  fun c => { c with maxRetries := retries }

/-- Function `WithTimeout`. -/
def WithTimeout (timeout : Int) : ClientOption :=
  fun c => { c with timeout := timeout }

/-- Function `WithRateLimiter`; `rl` says whether the limiter passed is non-nil. -/
def WithRateLimiter (rl : Bool) : ClientOption :=
  fun c => { c with rateLimiter := rl }

/-- Function `WithHeaders`. -/
def WithHeaders (headers : Option (List (String × String))) : ClientOption :=
  fun c => { c with headers := headers }

/-- Go's `m[code] = true` on the keys of the map. -/
def setTrue (code : Int) (m : List Int) : List Int :=
  if code ∈ m then m else m ++ [code]

/-- Function `WithRetryableStatus`: `c.retryableStatus[code] = true` for each code. -/
def WithRetryableStatus (statusCodes : List Int) : ClientOption :=
  fun c =>
    { c with
      retryableStatus := statusCodes.foldl (fun m code => setTrue code m) c.retryableStatus }

/-- Go's `http.StatusTooManyRequests`. -/
def StatusTooManyRequests : Int := 429

/-- Go's `http.StatusInternalServerError`. -/
def StatusInternalServerError : Int := 500

/-- Go's `http.StatusBadGateway`. -/
def StatusBadGateway : Int := 502

/-- Go's `http.StatusServiceUnavailable`. -/
def StatusServiceUnavailable : Int := 503

/-- Go's `http.StatusGatewayTimeout`. -/
def StatusGatewayTimeout : Int := 504

/-- Function `New` of request.go: the defaults, then the options in order. -/
def New (options : List ClientOption) : Client :=
  options.foldl (fun client option => option client)
    { rateLimiter := false, headers := none, maxRetries := 3, timeout := 0,
      skipTLSVerify := true,
      retryableStatus := [StatusTooManyRequests, StatusInternalServerError, StatusBadGateway,
        StatusServiceUnavailable, StatusGatewayTimeout] }

/-- What surrounds a call of `Do`, by attempt number except for the transport: the error
of `rateLimiter.Wait` if it fails, what the transport returns on its i-th invocation,
whether `ctx.Done()` wins the `select` after the attempt, and the raw value the random
generator draws there. -/
structure Env where
  limiter : Nat → Option String
  transport : Nat → Except String Response
  done : Nat → Bool
  rand : Nat → Nat

/-- Method `doRequest` in attempt `attempt`, after `calls` invocations of the transport:
what it returns and the invocations made so far. -/
def doRequest (c : Client) (env : Env) (attempt calls : Nat) : Except Error Response × Nat :=
  match (if c.rateLimiter = true then env.limiter attempt else none) with
  | some cause => (Except.error (Error.rateLimiterWait cause), calls)
  | none =>
    match env.transport calls with
    | Except.error cause => (Except.error (Error.transport cause), calls + 1)
    | Except.ok resp => (Except.ok resp, calls + 1)

/-- Go's `rand.Int63n(n)`: a panic for `n <= 0`, else the raw draw brought into `[0, n)`. -/
def Int63n (raw : Nat) (n : Int) : Option Int :=
  if n ≤ 0 then none else some ((raw : Int) % n)

/-- How the block "Apply backoff with jitter" ends; the source has the block twice, after
a failed call and after a retryable status. -/
inductive Wait where
  | slept (sleepTime : Int)
  | cancelled
  | panicked
  deriving DecidableEq

/-- The block "Apply backoff with jitter" after attempt `attempt`:
`jitter := rand.Int63n(int64(backoff / 4))`, `sleepTime := backoff + jitter`, the `select`. -/
def backoffWait (env : Env) (attempt : Nat) (backoff : Int) : Wait :=
  match Int63n (env.rand attempt) (Int.tdiv backoff 4) with
  | none => Wait.panicked
  | some jitter =>
    if env.done attempt = true then Wait.cancelled
    else Wait.slept (wrap64 (backoff + jitter))

/-- The loop `for attempt := 0; attempt <= c.maxRetries; attempt++` of `Do` from
`attempt` on, with the value of `backoff`, the invocations and the sleeps so far; the
first argument bounds the iterations. After the loop comes "max retries exceeded". -/
def doLoop (c : Client) (env : Env) : Nat → Nat → Int → Nat → List Int → DoResult
  | 0, attempt, _, calls, sleeps =>
    if (attempt : Int) ≤ c.maxRetries then
      { outcome := Outcome.outOfFuel, calls := calls, sleeps := sleeps }
    else { outcome := Outcome.err Error.maxRetriesExceeded, calls := calls, sleeps := sleeps }
  | fuel + 1, attempt, backoff, calls, sleeps =>
    if (attempt : Int) ≤ c.maxRetries then
      match doRequest c env attempt calls with
      | (Except.error e, calls) =>
        if (attempt : Int) < c.maxRetries then
          match backoffWait env attempt backoff with
          | Wait.panicked => { outcome := Outcome.panicked, calls := calls, sleeps := sleeps }
          | Wait.cancelled =>
            { outcome := Outcome.err Error.context, calls := calls, sleeps := sleeps }
          | Wait.slept sleepTime =>
            doLoop c env fuel (attempt + 1) (wrap64 (backoff * 2)) calls
              (sleeps ++ [sleepTime])
        else { outcome := Outcome.err e, calls := calls, sleeps := sleeps }
      | (Except.ok resp, calls) =>
        if resp.StatusCode ∉ c.retryableStatus ∨ (attempt : Int) = c.maxRetries then
          { outcome := Outcome.ok resp, calls := calls, sleeps := sleeps }
        else
          match backoffWait env attempt backoff with
          | Wait.panicked => { outcome := Outcome.panicked, calls := calls, sleeps := sleeps }
          | Wait.cancelled =>
            { outcome := Outcome.err Error.context, calls := calls, sleeps := sleeps }
          | Wait.slept sleepTime =>
            doLoop c env fuel (attempt + 1) (wrap64 (backoff * 2)) calls
              (sleeps ++ [sleepTime])
    else { outcome := Outcome.err Error.maxRetriesExceeded, calls := calls, sleeps := sleeps }

/-- Method `Do`: the body is read, `backoff` starts at `time.Millisecond * 500`, and the
loop gets the `maxRetries + 1` iterations its condition allows. Headers and the timeout
act on the request and its context, which are in the environment. -/
def Do (c : Client) (env : Env) (req : Request) : DoResult :=
  match req.Body with
  | some (Except.error cause) =>
    { outcome := Outcome.err (Error.readingRequestBody cause), calls := 0, sleeps := [] }
  | _ => doLoop c env (c.maxRetries + 1).toNat 0 (wrap64 (1000000 * 500)) 0 []

/-- The value of `backoff` at attempt `i`, as the loop computes it. -/
def backoffAt : Nat → Int
  | 0 => wrap64 (1000000 * 500)
  | i + 1 => wrap64 (backoffAt i * 2)

/-- The duration slept after attempt `i` when the wait there is not cancelled. -/
def sleepAt (env : Env) (i : Nat) : Int :=
  wrap64 (backoffAt i + (env.rand i : Int) % Int.tdiv (backoffAt i) 4)

/-- An environment for the examples: no limiter error, no cancellation, every raw draw 7,
and the transport given. -/
def quiet (transport : Nat → Except String Response) : Env :=
  { limiter := fun _ => none, transport := transport, done := fun _ => false,
    rand := fun _ => 7 }

/-- A request without a body, for the examples. -/
def plainRequest : Request := { Body := none }

/-- A transport that answers its first `k` invocations with status `retry` and every
later one with status `final`. -/
def statusThen (k : Nat) (retry final : Int) : Nat → Except String Response :=
  fun i => if i < k then Except.ok { StatusCode := retry, Body := "" }
    else Except.ok { StatusCode := final, Body := "done" }

/-- A transport that fails on every invocation. -/
def alwaysFails : Nat → Except String Response :=
  fun _ => Except.error "connection refused"

end request

/-! ## Sessions for the examples of the identity key -/

/-- A second movie, with another title and session identifier than `movie`. -/
def otherMovie : MediaSession :=
  { movie "paused" 10 with SessionID := "9", Title := "Alien", Year := 1979 }

/-- An episode with the given show title and episode title. -/
def episodeOf (showTitle episodeTitle : String) : MediaSession :=
  { episode "playing" 20 with ShowTitle := showTitle, EpisodeTitle := episodeTitle }

/-- The string holds no character `-`. -/
def noDash (s : String) : Prop := '-' ∉ s.data

instance (s : String) : Decidable (noDash s) := by
  unfold noDash; infer_instance

/-! ## scrobble.go: the poll loop -/

/-- What the `select` of `Sync.scrobble` takes next: the cancellation of the context, or a
tick of the ticker together with what `GetSessions` returns on it and which `Scrobble`
calls of that tick fail. -/
inductive Signal where
  | done
  | tick (poll : Except String (List MediaSession)) (fails : Nat → Bool)

/-- Where a call of `Sync.scrobble` stands after the signals given: still in the loop, or
returned with its error (nil is `none`), or panicked in `time.NewTicker`. -/
inductive Run where
  | running (s : Sync)
  | returned (s : Sync) (err : Option String)
  | panicked
  deriving DecidableEq

/-- The loop `for { select { ... } }` of `Sync.scrobble` on the signals still to come, with
the worker and the trace so far. -/
def scrobbleLoop : List Signal → Sync → List Event → Run × List Event
  | [], s, trace => (Run.running s, trace)
  | Signal.done :: _, s, trace => (Run.returned s none, trace)
  | Signal.tick (Except.error _) _ :: rest, s, trace =>
    scrobbleLoop rest s (trace ++ [Event.logError s.source])
  | Signal.tick (Except.ok activeSessions) fails :: rest, s, trace =>
    scrobbleLoop rest (Sync.sync fails s activeSessions).1
      (trace ++ (Sync.sync fails s activeSessions).2)

/-- Method `Sync.scrobble`: `time.NewTicker(s.interval)` panics unless the interval is
positive; then the loop runs. -/
def Sync.scrobble (signals : List Signal) (s : Sync) : Run × List Event :=
  if s.interval ≤ 0 then (Run.panicked, []) else scrobbleLoop signals s []

/-- A run of ticks of one worker: `Sync.sync` on each active-session list in turn, each
with its own outcomes of the `Scrobble` calls. -/
def ticks : List ((Nat → Bool) × List MediaSession) → Sync → Sync
  | [], s => s
  | (fails, active) :: rest, s => ticks rest (Sync.sync fails s active).1

/-! ## config.go: Validate -/

namespace config

/-- The struct `config.Server` (`Type_` is the field `Type`). -/
structure Server where
  Type_ : String
  URL : String
  Token : String
  Username : String
  Password : String
  deriving DecidableEq

/-- The loop "Validate each client" of `Validate`: the first error, if any. -/
def validateServers : List (String × Server) → Option String
  | [] => none
  | (name, server) :: rest =>
    if server.URL = "" then some ("server " ++ name ++ " URL is required")
    else if server.Type_ = "" then some ("server " ++ name ++ " type is required")
    else if server.Type_ ≠ "plex" ∧ server.Type_ ≠ "jellyfin" ∧ server.Type_ ≠ "emby" then
      some ("server " ++ name ++ " has an invalid type: " ++ server.Type_)
    else validateServers rest

/-- The loop over the targets of one group in `Validate`. -/
def validateTargets (name : String) : List String → Option String
  | [] => none
  | target :: rest =>
    if target = "" then some ("sync " ++ name ++ " has an empty target")
    else validateTargets name rest

/-- The loop "Validate Sync config" of `Validate`: the first error, if any. -/
def validateSyncs : List Sync → Option String
  | [] => none
  | _sync :: rest =>
    if _sync.Name = "" then some "sync name is required"
    else if _sync.Source = "" then some ("sync " ++ _sync.Name ++ " source is required")
    else
      match validateTargets _sync.Name _sync.Targets with
      | some err => some err
      | none =>
        if _sync.Interval = some "0" then
          some ("sync " ++ _sync.Name ++ " interval cannot be zero")
        else validateSyncs rest

/-- Method `Config.Validate`, with the field `Servers` as first argument: the error, `none`
for nil. -/
def Validate (Servers : List (String × Server)) (c : Config) : Option String :=
  if Servers.length = 0 then some "no servers configured"
  else
    match validateServers Servers with
    | some err => some err
    | none => validateSyncs c.Sync

end config

/-- What `time.ParseDuration` returns on a few strings, in nanoseconds, and an error on
every other string: a table for the examples. -/
def parseTable (text : String) : Option Int :=
  if text = "10s" then some 10000000000
  else if text = "1m" then some 60000000000
  else if text = "0s" then some 0
  else if text = "-5s" then some (-5000000000)
  else if text = "0" then some 0
  else none

/-- A configured server for the examples. -/
def plexServer : config.Server :=
  { Type_ := "plex", URL := "http://localhost:32400", Token := "token", Username := "",
    Password := "" }

/-- A configuration for the examples: global interval "10s" and the groups given. -/
def configOf (groups : List config.Sync) : config.Config :=
  { Interval := "10s", Sync := groups }

/-- A sync group for the examples, with source "A" and target "B". -/
def groupNamed (name : String) (interval : Option String) : config.Sync :=
  { Name := name, Source := "A", Targets := ["B"], Interval := interval }

/-- The target names of a group without the source and "trakt". -/
def otherTargets (s : config.Sync) : List String :=
  s.Targets.filter (fun t => decide (t ≠ s.Source ∧ t ≠ "trakt"))

/-- Whether the source of a group is filed in the servers map. -/
def sourceKnown (servers : List (String × String)) (s : config.Sync) : Bool :=
  (goLookup s.Source servers).isSome

/-! ## misc.go -/

namespace misc

/-- The integer nearest to `q`, a tie going to the even one. -/
def roundHalfEven (q : ℚ) : Int :=
  if q - ⌊q⌋ < 1 / 2 then ⌊q⌋
  else if 1 / 2 < q - ⌊q⌋ then ⌊q⌋ + 1
  else if ⌊q⌋ % 2 = 0 then ⌊q⌋ else ⌊q⌋ + 1

/-- The float64 nearest to `q`, a tie going to the even mantissa: the result of a float64
operation whose exact value is `q`, for `q` in the range of the normal numbers (53 bits of
mantissa at the binary exponent of `q`). Quotients and products of int64 values are in
that range. -/
def round64 (q : ℚ) : ℚ :=
  if q = 0 then 0
  else (roundHalfEven (q / 2 ^ (Int.log 2 |q| - 52)) : ℚ) * 2 ^ (Int.log 2 |q| - 52)

/-- Function `CalculateProgress`: `float64(viewOffset) / float64(duration) * 100.0`, each
conversion and operation rounded to float64, and 0 for `duration == 0`. -/
def CalculateProgress (viewOffset duration : Int) : Float64 :=
  if duration = 0 then Float64.ofNat 0
  else Float64.finite (round64 (round64 (round64 viewOffset / round64 duration) * 100))

end misc

end Scroblarr

namespace Scroblarr

/-! ## The action policy -/

theorem Float64.gt_false_of_le {x y : Float64} (h : Float64.le x y = true) :
    Float64.gt x y = false := by
  cases x <;> cases y <;> simp_all [Float64.le, Float64.gt]

theorem getAction_eq_stop_iff (s : MediaSession) :
    getAction s = "stop" ↔
      s.State = "stopped" ∧ Float64.gt s.Progress (Float64.ofNat 90) = true := by
  unfold getAction
  by_cases h1 : s.State = "playing"
  · simp [h1]
  · by_cases h2 : s.State = "paused"
    · simp [h2]
    · by_cases h3 : s.State = "stopped"
      · by_cases h4 : Float64.gt s.Progress (Float64.ofNat 90) = true
        · simp [h3, h4]
        · simp [h3, h4]
      · simp [h1, h2, h3]

/-- C1: `getAction` is a total function of `State` and `Progress` alone: "start" for
"playing", "pause" for "paused", for "stopped" "stop" when `Progress > 90` and "pause"
when `Progress <= 90` (so at exactly 90), "start" for every other state; its result is
one of "start", "pause", "stop", and sessions agreeing on `State` and `Progress` get the
same action. -/
theorem getAction_reference (s : MediaSession) :
    (s.State = "playing" → getAction s = "start") ∧
    (s.State = "paused" → getAction s = "pause") ∧
    (s.State = "stopped" → Float64.gt s.Progress (Float64.ofNat 90) = true →
      getAction s = "stop") ∧
    (s.State = "stopped" → Float64.le s.Progress (Float64.ofNat 90) = true →
      getAction s = "pause") ∧
    (s.State = "stopped" → s.Progress = Float64.ofNat 90 → getAction s = "pause") ∧
    (s.State ≠ "playing" → s.State ≠ "paused" → s.State ≠ "stopped" →
      getAction s = "start") ∧
    (getAction s = "start" ∨ getAction s = "pause" ∨ getAction s = "stop") ∧
    (∀ t : MediaSession, t.State = s.State → t.Progress = s.Progress →
      getAction t = getAction s) := by
  refine ⟨?_, ?_, ?_, ?_, ?_, ?_, ?_, ?_⟩
  · intro h; simp [getAction, h]
  · intro h; simp [getAction, h]
  · intro h hp; simp [getAction, h, hp]
  · intro h hp; simp [getAction, h, Float64.gt_false_of_le hp]
  · intro h hp
    have : Float64.gt s.Progress (Float64.ofNat 90) = false := by
      rw [hp]; simp [Float64.gt, Float64.ofNat]
    simp [getAction, h, this]
  · intro h1 h2 h3; simp [getAction, h1, h2, h3]
  · unfold getAction; split_ifs <;> simp
  · intro t hs hp; simp [getAction, hs, hp]

/-! ## The map underneath the store -/

theorem mapLookup_mapAssign_self (k : String) (v : MediaSession)
    (m : List (String × MediaSession)) : mapLookup k (mapAssign k v m) = some v := by
  induction m with
  | nil => simp [mapAssign, mapLookup]
  | cons e rest ih =>
    obtain ⟨k0, w⟩ := e
    by_cases hk : k0 = k
    · simp [mapAssign, mapLookup, hk]
    · simp [mapAssign, mapLookup, hk, ih]

theorem mapLookup_mapAssign_ne {k k1 : String} (hne : k1 ≠ k) (v : MediaSession)
    (m : List (String × MediaSession)) :
    mapLookup k1 (mapAssign k v m) = mapLookup k1 m := by
  induction m with
  | nil => simp [mapAssign, mapLookup, Ne.symm hne]
  | cons e rest ih =>
    obtain ⟨k0, w⟩ := e
    by_cases hk : k0 = k
    · subst hk
      simp [mapAssign, mapLookup, Ne.symm hne]
    · by_cases hk1 : k0 = k1
      · subst hk1
        simp [mapAssign, mapLookup, hk]
      · simp [mapAssign, mapLookup, hk, hk1, ih]

theorem mapAssign_mapAssign_same (k : String) (v : MediaSession)
    (m : List (String × MediaSession)) :
    mapAssign k v (mapAssign k v m) = mapAssign k v m := by
  induction m with
  | nil => simp [mapAssign]
  | cons e rest ih =>
    obtain ⟨k0, w⟩ := e
    by_cases hk : k0 = k
    · simp [mapAssign, hk]
    · simp [mapAssign, hk, ih]

theorem mapLookup_eq_none {k : String} {m : List (String × MediaSession)}
    (hk : k ∉ m.map (fun e => e.1)) : mapLookup k m = none := by
  induction m with
  | nil => rfl
  | cons e rest ih =>
    obtain ⟨k0, w⟩ := e
    simp only [List.map_cons, List.mem_cons, not_or] at hk
    simp [mapLookup, Ne.symm hk.1, ih hk.2]

theorem mem_of_mapLookup {k : String} {v : MediaSession} {m : List (String × MediaSession)}
    (h : mapLookup k m = some v) : (k, v) ∈ m := by
  induction m with
  | nil => simp [mapLookup] at h
  | cons e rest ih =>
    obtain ⟨k0, w⟩ := e
    by_cases hk : k0 = k
    · simp [mapLookup, hk] at h
      simp [hk, h]
    · simp [mapLookup, hk] at h
      exact List.mem_cons_of_mem _ (ih h)

theorem mapLookup_of_mem {k : String} {v : MediaSession} {m : List (String × MediaSession)}
    (hnd : (m.map (fun e => e.1)).Nodup) (h : (k, v) ∈ m) : mapLookup k m = some v := by
  induction m with
  | nil => simp at h
  | cons e rest ih =>
    obtain ⟨k0, w⟩ := e
    simp only [List.map_cons, List.nodup_cons] at hnd
    rcases List.mem_cons.1 h with heq | hin
    · cases heq
      simp [mapLookup]
    · have hne : k0 ≠ k := by
        intro hk
        apply hnd.1
        rw [hk]
        exact List.mem_map.2 ⟨(k, v), hin, rfl⟩
      simp [mapLookup, hne, ih hnd.2 hin]

theorem mapAssign_of_mem {k : String} (v : MediaSession) {m : List (String × MediaSession)}
    (hk : k ∈ m.map (fun e => e.1)) :
    (mapAssign k v m).map (fun e => e.1) = m.map (fun e => e.1) := by
  induction m with
  | nil => simp at hk
  | cons e rest ih =>
    obtain ⟨k0, w⟩ := e
    by_cases h0 : k0 = k
    · simp [mapAssign, h0]
    · have : k ∈ rest.map (fun e => e.1) := by
        simp only [List.map_cons, List.mem_cons] at hk
        rcases hk with hk | hk
        · exact absurd hk.symm h0
        · exact hk
      simp [mapAssign, h0, ih this]

theorem mapAssign_of_not_mem {k : String} (v : MediaSession)
    {m : List (String × MediaSession)} (hk : k ∉ m.map (fun e => e.1)) :
    mapAssign k v m = m ++ [(k, v)] := by
  induction m with
  | nil => simp [mapAssign]
  | cons e rest ih =>
    obtain ⟨k0, w⟩ := e
    simp only [List.map_cons, List.mem_cons, not_or] at hk
    simp [mapAssign, Ne.symm hk.1, ih hk.2]

theorem mem_mapAssign {k : String} {v : MediaSession} {m : List (String × MediaSession)}
    {e : String × MediaSession} (he : e ∈ mapAssign k v m) : e = (k, v) ∨ e ∈ m := by
  induction m with
  | nil => simpa [mapAssign] using he
  | cons e0 rest ih =>
    obtain ⟨k0, w⟩ := e0
    by_cases h0 : k0 = k
    · simp only [mapAssign, h0, if_true, List.mem_cons] at he
      rcases he with he | he
      · exact Or.inl he
      · exact Or.inr (List.mem_cons_of_mem _ he)
    · simp only [mapAssign, h0, if_false, List.mem_cons] at he
      rcases he with he | he
      · exact Or.inr (by simp [he])
      · rcases ih he with h | h
        · exact Or.inl h
        · exact Or.inr (List.mem_cons_of_mem _ h)

namespace MediaSessionHistory

theorem WF_New : NewMediaSessionHistory.WF := by
  simp [WF, NewMediaSessionHistory, keys]

theorem WF_Set {h : MediaSessionHistory} (hwf : h.WF) (s : MediaSession) : (h.Set s).WF := by
  obtain ⟨hnd, hown⟩ := hwf
  refine ⟨?_, ?_⟩
  · by_cases hk : GetHistoryKey s ∈ h.sessions.map (fun e => e.1)
    · simp only [keys, Set]
      rw [mapAssign_of_mem s hk]
      exact hnd
    · simp only [keys, Set]
      rw [mapAssign_of_not_mem s hk, List.map_append]
      simp only [List.map_cons, List.map_nil]
      refine List.Nodup.append hnd (List.nodup_singleton _) ?_
      intro a ha hb
      simp only [List.mem_singleton] at hb
      exact hk (hb ▸ ha)
  · intro e he
    rcases mem_mapAssign he with h1 | h1
    · rw [h1]
    · exact hown e h1

theorem WF_Delete {h : MediaSessionHistory} (hwf : h.WF) (k : String) : (h.Delete k).WF := by
  obtain ⟨hnd, hown⟩ := hwf
  refine ⟨?_, ?_⟩
  · simp only [keys, Delete, mapDelete]
    exact List.Nodup.sublist ((List.filter_sublist _).map _) hnd
  · intro e he
    exact hown e (List.mem_of_mem_filter he)

theorem WF_Clear (h : MediaSessionHistory) : h.Clear.WF := by
  simp [WF, Clear, keys]

theorem SetMany_eq_foldl (h : MediaSessionHistory) (l : List MediaSession) :
    h.SetMany l = l.foldl Set h := by
  induction l generalizing h with
  | nil => rfl
  | cons x rest ih =>
    have := ih (h.Set x)
    simpa [SetMany, setManyLoop, Set] using this

theorem WF_SetMany {h : MediaSessionHistory} (hwf : h.WF) (l : List MediaSession) :
    (h.SetMany l).WF := by
  rw [SetMany_eq_foldl]
  induction l generalizing h with
  | nil => exact hwf
  | cons x rest ih => exact ih (WF_Set hwf x)

end MediaSessionHistory

/-! ## The session store -/

namespace MediaSessionHistory

theorem Get_Set_self (h : MediaSessionHistory) (s : MediaSession) :
    (h.Set s).Get (GetHistoryKey s) = (s, true) := by
  simp [Get, Set, mapLookup_mapAssign_self]

theorem Get_Set_ne (h : MediaSessionHistory) (s : MediaSession) {k : String}
    (hk : k ≠ GetHistoryKey s) : (h.Set s).Get k = h.Get k := by
  simp [Get, Set, mapLookup_mapAssign_ne hk]

theorem Get_foldl_Set_ne (l : List MediaSession) (h : MediaSessionHistory) {k : String}
    (hk : ∀ y ∈ l, GetHistoryKey y ≠ k) : (l.foldl Set h).Get k = h.Get k := by
  induction l generalizing h with
  | nil => rfl
  | cons y rest ih =>
    rw [List.foldl_cons, ih (h.Set y) (fun z hz => hk z (List.mem_cons_of_mem _ hz))]
    exact Get_Set_ne h y (Ne.symm (hk y (List.mem_cons_self _ _)))

theorem iterate_Set (h : MediaSessionHistory) (s : MediaSession) (n : Nat) :
    (fun g => Set g s)^[n + 1] h = h.Set s := by
  induction n with
  | zero => rfl
  | succ n ih =>
    rw [Function.iterate_succ_apply', ih]
    simp [Set, mapAssign_mapAssign_same]

end MediaSessionHistory

/-- C7: after `h.Set(s)`, `Get` of the key of `s` returns `(s, true)` and `Get` of every
other key returns what it returned before; `Get` of a key that is not stored, such as any
key of a fresh store, returns found = false (with the zero session). -/
theorem Set_upserts (h : MediaSessionHistory) (s : MediaSession) :
    (h.Set s).Get (GetHistoryKey s) = (s, true) ∧
    (∀ k : String, k ≠ GetHistoryKey s → (h.Set s).Get k = h.Get k) ∧
    (∀ k : String, k ∉ h.keys → h.Get k = (MediaSession.zero, false)) ∧
    (∀ k : String, NewMediaSessionHistory.Get k = (MediaSession.zero, false)) := by
  refine ⟨MediaSessionHistory.Get_Set_self h s,
    fun k hk => MediaSessionHistory.Get_Set_ne h s hk, ?_, ?_⟩
  · intro k hk
    simp [MediaSessionHistory.Get, mapLookup_eq_none hk]
  · intro k
    simp [MediaSessionHistory.Get, NewMediaSessionHistory, mapLookup]

/-- C8: calling `h.Set(s)` two or more times leaves the store as one call leaves it: the
store is the same, so the length of `GetAll` is the one after the first call, and `Get`
of the key of `s` returns `s`. -/
theorem Set_idempotent (h : MediaSessionHistory) (s : MediaSession) :
    (h.Set s).Set s = h.Set s ∧
    (∀ n : Nat, (fun g => MediaSessionHistory.Set g s)^[n + 1] h = h.Set s) ∧
    (∀ n : Nat, ((fun g => MediaSessionHistory.Set g s)^[n + 1] h).GetAll.length =
      (h.Set s).GetAll.length) ∧
    (∀ n : Nat, ((fun g => MediaSessionHistory.Set g s)^[n + 1] h).Get (GetHistoryKey s) =
      (s, true)) := by
  refine ⟨?_, MediaSessionHistory.iterate_Set h s, ?_, ?_⟩
  · simp [MediaSessionHistory.Set, mapAssign_mapAssign_same]
  · intro n; rw [MediaSessionHistory.iterate_Set]
  · intro n; rw [MediaSessionHistory.iterate_Set]; exact MediaSessionHistory.Get_Set_self h s

/-- C9: `h.SetMany(l)` leaves the store as calling `h.Set` on each element of `l` in order
leaves it; an element of `l` after which no element has its key is the one `Get` returns
for that key (the last one wins); `SetMany` of the empty list changes nothing. -/
theorem SetMany_is_Set_in_order (h : MediaSessionHistory) (l : List MediaSession) :
    h.SetMany l = l.foldl MediaSessionHistory.Set h ∧
    (∀ (pre post : List MediaSession) (x : MediaSession), l = pre ++ x :: post →
      (∀ y ∈ post, GetHistoryKey y ≠ GetHistoryKey x) →
      (h.SetMany l).Get (GetHistoryKey x) = (x, true)) ∧
    h.SetMany [] = h := by
  refine ⟨MediaSessionHistory.SetMany_eq_foldl h l, ?_, rfl⟩
  intro pre post x hl hpost
  rw [MediaSessionHistory.SetMany_eq_foldl, hl, List.foldl_append, List.foldl_cons,
    MediaSessionHistory.Get_foldl_Set_ne post _ hpost]
  exact MediaSessionHistory.Get_Set_self _ x

/-- C10: for a store as its methods keep it, `GetAll` returns one session per stored key:
as many sessions as there are distinct keys, the keys of the sessions returned are the
stored keys, no session twice, and a session is returned if and only if `Get` of its key
returns it; a fresh or cleared store gives the empty sequence. -/
theorem GetAll_one_per_key (h : MediaSessionHistory) (hwf : h.WF) :
    h.GetAll.length = h.keys.toFinset.card ∧
    h.GetAll.map GetHistoryKey = h.keys ∧
    h.GetAll.Nodup ∧
    (∀ x : MediaSession, x ∈ h.GetAll ↔ h.Get (GetHistoryKey x) = (x, true)) ∧
    NewMediaSessionHistory.GetAll = [] ∧ h.Clear.GetAll = [] := by
  obtain ⟨hnd, hown⟩ := hwf
  have hkeys : h.GetAll.map GetHistoryKey = h.keys := by
    simp only [MediaSessionHistory.GetAll, MediaSessionHistory.keys, List.map_map]
    apply List.map_congr_left
    intro e he
    exact (hown e he).symm
  refine ⟨?_, hkeys, ?_, ?_, rfl, rfl⟩
  · rw [List.toFinset_card_of_nodup hnd]
    simp [MediaSessionHistory.GetAll, MediaSessionHistory.keys]
  · apply List.Nodup.of_map GetHistoryKey
    rw [hkeys]; exact hnd
  · intro x
    constructor
    · intro hx
      obtain ⟨e, he, hex⟩ := List.mem_map.1 hx
      have hk : e.1 = GetHistoryKey x := by rw [← hex]; exact hown e he
      have hmem : (GetHistoryKey x, x) ∈ h.sessions := by
        rw [← hk, ← hex]; exact he
      simp [MediaSessionHistory.Get, mapLookup_of_mem hnd hmem]
    · intro hx
      unfold MediaSessionHistory.Get at hx
      cases hl : mapLookup (GetHistoryKey x) h.sessions with
      | none => rw [hl] at hx; simp at hx
      | some v =>
        rw [hl] at hx
        simp only [Prod.mk.injEq, and_true] at hx
        subst hx
        exact List.mem_map.2 ⟨_, mem_of_mapLookup hl, rfl⟩

/-- The theorem of C10 at a store holding a movie and an episode. -/
theorem GetAll_one_per_key_witness :
    (NewMediaSessionHistory.SetMany [movie "playing" 45, episode "paused" 10]).WF ∧
    (NewMediaSessionHistory.SetMany [movie "playing" 45, episode "paused" 10]).GetAll.length
      = 2 := by
  refine ⟨by decide, ?_⟩
  have h := (GetAll_one_per_key
    (NewMediaSessionHistory.SetMany [movie "playing" 45, episode "paused" 10])
    (by decide)).1
  rw [h]; decide

/-! ## The tick: what is delivered -/

theorem completion_eq_delivered (x : MediaSession) :
    (if getAction x = "stop" ∧ Float64.gt x.Progress (Float64.ofNat 90) = true
      then { x with Progress := Float64.ofNat 100 } else x) = delivered x := by
  unfold delivered
  by_cases h : getAction x = "stop"
  · have hp := ((getAction_eq_stop_iff x).1 h).2
    simp [h, hp]
  · simp [h]

theorem delivered_of_stop {x : MediaSession} (h : getAction x = "stop") :
    delivered x = { x with Progress := Float64.ofNat 100 } := by
  unfold delivered; rw [if_pos h]

theorem delivered_of_not_stop {x : MediaSession} (h : getAction x ≠ "stop") :
    delivered x = x := by
  unfold delivered; rw [if_neg h]

theorem getAction_delivered (x : MediaSession) : getAction (delivered x) = getAction x := by
  by_cases h : getAction x = "stop"
  · rw [delivered_of_stop h, h]
    have hs := ((getAction_eq_stop_iff x).1 h).1
    have hgt : Float64.gt (Float64.ofNat 100) (Float64.ofNat 90) = true := by decide
    exact (getAction_eq_stop_iff _).2 ⟨hs, hgt⟩
  · rw [delivered_of_not_stop h]

theorem delivered_delivered (x : MediaSession) : delivered (delivered x) = delivered x := by
  by_cases h : getAction x = "stop"
  · have h2 : getAction (delivered x) = "stop" := by rw [getAction_delivered, h]
    rw [delivered_of_stop h2, delivered_of_stop h]
  · have h2 : getAction (delivered x) ≠ "stop" := by rw [getAction_delivered]; exact h
    rw [delivered_of_not_stop h2]

theorem targetCalls_append (a b : List Event) :
    targetCalls (a ++ b) = targetCalls a ++ targetCalls b := by
  induction a with
  | nil => rfl
  | cons e rest ih => cases e <;> simp [targetCalls, ih]

theorem traktCalls_append (a b : List Event) :
    traktCalls (a ++ b) = traktCalls a ++ traktCalls b := by
  induction a with
  | nil => rfl
  | cons e rest ih => cases e <;> simp [traktCalls, ih]

theorem targetCalls_syncToTrakt (fails : Nat → Bool) (n : Nat) (x : MediaSession) :
    targetCalls (syncToTrakt fails n x) = [] := by
  unfold syncToTrakt
  by_cases hf : fails n = true <;> simp [targetCalls, hf]

theorem traktCalls_syncToTrakt (fails : Nat → Bool) (n : Nat) (x : MediaSession) :
    traktCalls (syncToTrakt fails n x) = [(delivered x, getAction x)] := by
  unfold syncToTrakt
  simp only [completion_eq_delivered]
  by_cases hf : fails n = true <;> simp [traktCalls, hf]

theorem targetCalls_targetLoop (fails : Nat → Bool) (targets : List String) (n : Nat)
    (x : MediaSession) :
    targetCalls (targetLoop fails targets n x) =
      targets.map (fun t => (t, delivered x, getAction x)) := by
  induction targets generalizing n x with
  | nil => rfl
  | cons t rest ih =>
    unfold targetLoop
    simp only [completion_eq_delivered]
    have hrest := ih (n + 1) (delivered x)
    rw [delivered_delivered, getAction_delivered] at hrest
    by_cases hf : fails n = true <;> simp [targetCalls, hf, hrest]

theorem traktCalls_targetLoop (fails : Nat → Bool) (targets : List String) (n : Nat)
    (x : MediaSession) : traktCalls (targetLoop fails targets n x) = [] := by
  induction targets generalizing n x with
  | nil => rfl
  | cons t rest ih =>
    unfold targetLoop
    by_cases hf : fails n = true <;> simp [traktCalls, hf, ih]

theorem targetCalls_sessionLoop (fails : Nat → Bool) (trakt : Bool) (targets : List String)
    (sessions : List MediaSession) (n : Nat) :
    targetCalls (sessionLoop fails trakt targets sessions n) =
      sessions.flatMap (fun y => targets.map (fun t => (t, delivered y, getAction y))) := by
  induction sessions generalizing n with
  | nil => rfl
  | cons y rest ih =>
    unfold sessionLoop
    rw [targetCalls_append, targetCalls_append, ih, targetCalls_targetLoop]
    cases trakt
    · simp [targetCalls]
    · simp only [↓reduceIte]
      rw [targetCalls_syncToTrakt]
      simp

theorem traktCalls_sessionLoop (fails : Nat → Bool) (trakt : Bool) (targets : List String)
    (sessions : List MediaSession) (n : Nat) :
    traktCalls (sessionLoop fails trakt targets sessions n) =
      if trakt = true then sessions.map (fun y => (delivered y, getAction y)) else [] := by
  induction sessions generalizing n with
  | nil => cases trakt <;> rfl
  | cons y rest ih =>
    unfold sessionLoop
    rw [traktCalls_append, traktCalls_append, ih, traktCalls_targetLoop]
    cases trakt
    · simp [traktCalls]
    · simp only [↓reduceIte]
      rw [traktCalls_syncToTrakt]
      simp

theorem targetCalls_sync (fails : Nat → Bool) (s : Sync) (active : List MediaSession) :
    targetCalls (Sync.sync fails s active).2 =
      (s.sessions.SetMany active).GetAll.flatMap
        (fun y => s.targets.map (fun t => (t, delivered y, getAction y))) := by
  simp only [Sync.sync]
  exact targetCalls_sessionLoop fails s.trakt s.targets _ 0

theorem traktCalls_sync (fails : Nat → Bool) (s : Sync) (active : List MediaSession) :
    traktCalls (Sync.sync fails s active).2 =
      if s.trakt = true then
        (s.sessions.SetMany active).GetAll.map (fun y => (delivered y, getAction y))
      else [] := by
  simp only [Sync.sync]
  exact traktCalls_sessionLoop fails s.trakt s.targets _ 0

/-! ## The tick: what is stored -/

theorem mapAssign_append_of_not_mem {k : String} (v w : MediaSession)
    (pre rest : List (String × MediaSession)) (hk : k ∉ pre.map (fun e => e.1)) :
    mapAssign k v (pre ++ (k, w) :: rest) = pre ++ (k, v) :: rest := by
  induction pre with
  | nil => simp [mapAssign]
  | cons e tl ih =>
    obtain ⟨k0, u⟩ := e
    simp only [List.map_cons, List.mem_cons, not_or] at hk
    simp [mapAssign, Ne.symm hk.1, ih hk.2]

theorem stopLoop_entries (suf pre : List (String × MediaSession))
    (hnd : ((pre ++ suf).map (fun e => e.1)).Nodup)
    (hown : ∀ e ∈ suf, e.1 = GetHistoryKey e.2) :
    stopLoop (suf.map (fun e => e.2)) { sessions := pre ++ suf } =
      { sessions := pre ++ suf.map (fun e => (e.1, { e.2 with State := "stopped" })) } := by
  induction suf generalizing pre with
  | nil => rfl
  | cons e rest ih =>
    obtain ⟨k, v⟩ := e
    have hkey : GetHistoryKey { v with State := "stopped" } = k :=
      (hown (k, v) (List.mem_cons_self _ _)).symm
    have hk : k ∉ pre.map (fun e => e.1) := by
      intro hmem
      rw [List.map_append, List.map_cons] at hnd
      exact (List.nodup_append.1 hnd).2.2 hmem (List.mem_cons_self _ _)
    have hnd2 : (((pre ++ [(k, { v with State := "stopped" })]) ++ rest).map
        (fun e : String × MediaSession => e.1)).Nodup := by
      simpa using hnd
    have hstep := ih (pre ++ [(k, { v with State := "stopped" })]) hnd2
      (fun e he => hown e (List.mem_cons_of_mem _ he))
    simp only [List.map_cons, stopLoop, MediaSessionHistory.Set, hkey]
    rw [mapAssign_append_of_not_mem _ _ _ _ hk]
    simpa using hstep

theorem stopLoop_GetAll (h : MediaSessionHistory) (hwf : h.WF) :
    stopLoop h.GetAll h =
      { sessions := h.sessions.map (fun e => (e.1, { e.2 with State := "stopped" })) } := by
  have := stopLoop_entries h.sessions [] (by simpa using hwf.1) hwf.2
  simpa [MediaSessionHistory.GetAll] using this

theorem mapLookup_map_stopped (k : String) (m : List (String × MediaSession)) :
    mapLookup k (m.map (fun e => (e.1, { e.2 with State := "stopped" }))) =
      (mapLookup k m).map (fun x => { x with State := "stopped" }) := by
  induction m with
  | nil => rfl
  | cons e rest ih =>
    obtain ⟨k0, v⟩ := e
    by_cases hk : k0 = k
    · simp [mapLookup, hk]
    · simp [mapLookup, hk, ih]

theorem sync_fst (fails : Nat → Bool) (s : Sync) (active : List MediaSession) :
    (Sync.sync fails s active).1 =
      { s with sessions :=
          if active.length = 0 then
            stopLoop (s.sessions.SetMany active).GetAll (s.sessions.SetMany active)
          else s.sessions.SetMany active } := rfl

theorem sync_fst_nil (fails : Nat → Bool) (s : Sync) (hwf : s.sessions.WF) :
    (Sync.sync fails s []).1.sessions =
      { sessions := s.sessions.sessions.map
          (fun e => (e.1, { e.2 with State := "stopped" })) } := by
  rw [sync_fst]
  have h0 : s.sessions.SetMany [] = s.sessions := rfl
  simp only [List.length_nil, ↓reduceIte, h0]
  exact stopLoop_GetAll s.sessions hwf

/-! ## The claims about the tick -/

/-- C2: every `Scrobble` call of a tick, on a target or on Trakt, carries a session `y` of
the snapshot as `delivered y` (every field of `y`, with `Progress` exactly 100 when
`getAction y` is "stop" and `Progress` of `y` otherwise) together with `getAction y`, and
every target gets this call for every session of the snapshot, so all targets get the same
action and progress. A playing movie at 45 goes out as ("start", 45) to all targets and
Trakt; stopped at 95 on the next tick it goes out as ("stop", 100). -/
theorem sync_delivers_action_and_progress (fails : Nat → Bool) (s : Sync)
    (active : List MediaSession) :
    (∀ (t : String) (x : MediaSession) (a : String),
      (t, x, a) ∈ targetCalls (Sync.sync fails s active).2 →
        t ∈ s.targets ∧ ∃ y ∈ (s.sessions.SetMany active).GetAll,
          x = delivered y ∧ a = getAction y) ∧
    (∀ y ∈ (s.sessions.SetMany active).GetAll, ∀ t ∈ s.targets,
      (t, delivered y, getAction y) ∈ targetCalls (Sync.sync fails s active).2) ∧
    (∀ (x : MediaSession) (a : String),
      (x, a) ∈ traktCalls (Sync.sync fails s active).2 →
        s.trakt = true ∧ ∃ y ∈ (s.sessions.SetMany active).GetAll,
          x = delivered y ∧ a = getAction y) ∧
    (s.trakt = true → ∀ y ∈ (s.sessions.SetMany active).GetAll,
      (delivered y, getAction y) ∈ traktCalls (Sync.sync fails s active).2) ∧
    (∀ y : MediaSession,
      (getAction y = "stop" → delivered y = { y with Progress := Float64.ofNat 100 }) ∧
      (getAction y ≠ "stop" → delivered y = y)) ∧
    targetCalls (Sync.sync fails (worker ["B", "C"] true []) [movie "playing" 45]).2 =
      [("B", movie "playing" 45, "start"), ("C", movie "playing" 45, "start")] ∧
    traktCalls (Sync.sync fails (worker ["B", "C"] true []) [movie "playing" 45]).2 =
      [(movie "playing" 45, "start")] ∧
    targetCalls (Sync.sync fails
        (Sync.sync fails (worker ["B", "C"] true []) [movie "playing" 45]).1
        [movie "stopped" 95]).2 =
      [("B", movie "stopped" 100, "stop"), ("C", movie "stopped" 100, "stop")] ∧
    traktCalls (Sync.sync fails
        (Sync.sync fails (worker ["B", "C"] true []) [movie "playing" 45]).1
        [movie "stopped" 95]).2 =
      [(movie "stopped" 100, "stop")] := by
  refine ⟨?_, ?_, ?_, ?_, ?_, ?_, ?_, ?_, ?_⟩
  · intro t x a hmem
    rw [targetCalls_sync, List.mem_flatMap] at hmem
    obtain ⟨y, hy, hin⟩ := hmem
    obtain ⟨t0, ht0, heq⟩ := List.mem_map.1 hin
    simp only [Prod.mk.injEq] at heq
    obtain ⟨h1, h2, h3⟩ := heq
    exact ⟨h1 ▸ ht0, y, hy, h2.symm, h3.symm⟩
  · intro y hy t ht
    rw [targetCalls_sync, List.mem_flatMap]
    exact ⟨y, hy, List.mem_map.2 ⟨t, ht, rfl⟩⟩
  · intro x a hmem
    rw [traktCalls_sync] at hmem
    by_cases htr : s.trakt = true
    · rw [if_pos htr] at hmem
      obtain ⟨y, hy, heq⟩ := List.mem_map.1 hmem
      simp only [Prod.mk.injEq] at heq
      exact ⟨htr, y, hy, heq.1.symm, heq.2.symm⟩
    · rw [if_neg htr] at hmem
      simp at hmem
  · intro htr y hy
    rw [traktCalls_sync, if_pos htr]
    exact List.mem_map.2 ⟨y, hy, rfl⟩
  · intro y
    exact ⟨fun h => delivered_of_stop h, fun h => delivered_of_not_stop h⟩
  · rw [targetCalls_sync]; decide
  · rw [traktCalls_sync]; decide
  · rw [targetCalls_sync, sync_fst]; decide
  · rw [traktCalls_sync, sync_fst]; decide

/-- C3, evaluated on the code: with one playing movie stored and no active session, the
tick delivers "start" to the target and to Trakt, although it writes the movie back to
the store as "stopped"; the slice the deliveries range over is the snapshot taken before
the stop loop, whose assignments go to the loop variable only. -/
theorem sync_empty_tick_delivers_start :
    (worker ["B"] true [movie "playing" 50]).sessions.GetAll = [movie "playing" 50] ∧
    targetCalls (Sync.sync (fun _ => false) (worker ["B"] true [movie "playing" 50]) []).2 =
      [("B", movie "playing" 50, "start")] ∧
    traktCalls (Sync.sync (fun _ => false) (worker ["B"] true [movie "playing" 50]) []).2 =
      [(movie "playing" 50, "start")] ∧
    (Sync.sync (fun _ => false) (worker ["B"] true [movie "playing" 50]) []).1.sessions.GetAll =
      [movie "stopped" 50] := by
  decide

/-- C4: after `Sync.sync` with no active session, on a store as its methods keep it, every
stored session has `State = "stopped"`, the keys of the store are the keys it had, and
every stored session is the one it was with only `State` changed; keys that were absent
stay absent. -/
theorem sync_empty_forces_stopped (fails : Nat → Bool) (s : Sync) (hwf : s.sessions.WF) :
    (∀ x ∈ (Sync.sync fails s []).1.sessions.GetAll, x.State = "stopped") ∧
    (Sync.sync fails s []).1.sessions.keys = s.sessions.keys ∧
    (∀ (k : String) (x : MediaSession), s.sessions.Get k = (x, true) →
      (Sync.sync fails s []).1.sessions.Get k = ({ x with State := "stopped" }, true)) ∧
    (∀ k : String, (s.sessions.Get k).2 = false →
      (Sync.sync fails s []).1.sessions.Get k = s.sessions.Get k) ∧
    (Sync.sync fails s []).1.sessions.GetAll =
      s.sessions.GetAll.map (fun x => { x with State := "stopped" }) := by
  rw [sync_fst_nil fails s hwf]
  refine ⟨?_, ?_, ?_, ?_, ?_⟩
  · intro x hx
    simp only [MediaSessionHistory.GetAll, List.map_map, List.mem_map] at hx
    obtain ⟨e, _, he⟩ := hx
    rw [← he]; rfl
  · simp [MediaSessionHistory.keys]
  · intro k x hget
    unfold MediaSessionHistory.Get at hget ⊢
    rw [mapLookup_map_stopped]
    cases hl : mapLookup k s.sessions.sessions with
    | none => rw [hl] at hget; simp at hget
    | some v =>
      rw [hl] at hget
      simp only [Prod.mk.injEq, and_true] at hget
      simp [hget]
  · intro k hget
    unfold MediaSessionHistory.Get at hget ⊢
    rw [mapLookup_map_stopped]
    cases hl : mapLookup k s.sessions.sessions with
    | none => simp
    | some v => rw [hl] at hget; simp at hget
  · simp [MediaSessionHistory.GetAll]

/-- The theorem of C4 at a worker that holds a playing movie and a paused episode. -/
theorem sync_empty_forces_stopped_witness :
    (worker ["B"] true [movie "playing" 45, episode "paused" 10]).sessions.WF ∧
    (Sync.sync (fun _ => false)
      (worker ["B"] true [movie "playing" 45, episode "paused" 10]) []).1.sessions.GetAll =
      [movie "stopped" 45, episode "stopped" 10] := by
  refine ⟨by decide, ?_⟩
  rw [(sync_empty_forces_stopped (fun _ => false)
    (worker ["B"] true [movie "playing" 45, episode "paused" 10]) (by decide)).2.2.2.2]
  decide

/-- C5: whatever `Scrobble` calls fail, a tick makes the `Scrobble` calls on targets and
on Trakt that it makes when every call succeeds, same order and same arguments, and
leaves the same worker; with Trakt and target "B" failing, target "C" is still called for
the same session, and each failure is only logged. -/
theorem sync_failures_do_not_suppress (fails : Nat → Bool) (s : Sync)
    (active : List MediaSession) :
    targetCalls (Sync.sync fails s active).2 =
      targetCalls (Sync.sync (fun _ => false) s active).2 ∧
    traktCalls (Sync.sync fails s active).2 =
      traktCalls (Sync.sync (fun _ => false) s active).2 ∧
    (Sync.sync fails s active).1 = (Sync.sync (fun _ => false) s active).1 ∧
    (Sync.sync (fun n => decide (n ≤ 1)) (worker ["B", "C"] true [])
        [movie "playing" 45]).2 =
      [Event.traktScrobble (movie "playing" 45) "start", Event.logError "trakt",
        Event.targetScrobble "B" (movie "playing" 45) "start", Event.logError "B",
        Event.targetScrobble "C" (movie "playing" 45) "start",
        Event.logTrace "C" "start" "Heat" (Float64.ofNat 45)] := by
  refine ⟨?_, ?_, rfl, by decide⟩
  · rw [targetCalls_sync, targetCalls_sync]
  · rw [traktCalls_sync, traktCalls_sync]

/-- C6: in every tick the `Scrobble` calls on targets are, session by session of the
`GetAll` snapshot, one call per configured target in configured order, so
|snapshot| × |targets| in all; the calls on Trakt are one per snapshot session when the
worker has a Trakt client and none otherwise. -/
theorem sync_fanout_complete (fails : Nat → Bool) (s : Sync) (active : List MediaSession) :
    targetCalls (Sync.sync fails s active).2 =
      (s.sessions.SetMany active).GetAll.flatMap
        (fun y => s.targets.map (fun t => (t, delivered y, getAction y))) ∧
    (targetCalls (Sync.sync fails s active).2).map (fun c => c.1) =
      (s.sessions.SetMany active).GetAll.flatMap (fun _ => s.targets) ∧
    (targetCalls (Sync.sync fails s active).2).length =
      (s.sessions.SetMany active).GetAll.length * s.targets.length ∧
    traktCalls (Sync.sync fails s active).2 =
      (if s.trakt = true then
        (s.sessions.SetMany active).GetAll.map (fun y => (delivered y, getAction y))
      else []) ∧
    (traktCalls (Sync.sync fails s active).2).length =
      (if s.trakt = true then (s.sessions.SetMany active).GetAll.length else 0) := by
  refine ⟨targetCalls_sync fails s active, ?_, ?_, traktCalls_sync fails s active, ?_⟩
  · rw [targetCalls_sync]
    induction (s.sessions.SetMany active).GetAll with
    | nil => rfl
    | cons y rest ih =>
      have hrow : (s.targets.map (fun t => (t, delivered y, getAction y))).map
          (fun c => c.1) = s.targets := by
        rw [List.map_map]
        exact List.map_id _
      simp only [List.flatMap_cons, List.map_append, ih, hrow]
  · rw [targetCalls_sync]
    induction (s.sessions.SetMany active).GetAll with
    | nil => simp
    | cons y rest ih =>
      simp only [List.flatMap_cons, List.length_append, List.length_map, ih,
        List.length_cons]
      ring
  · rw [traktCalls_sync]
    by_cases htr : s.trakt = true <;> simp [htr]

/-! ## The identity key -/

theorem mapAssign_mapAssign_key (k : String) (v w : MediaSession)
    (m : List (String × MediaSession)) :
    mapAssign k w (mapAssign k v m) = mapAssign k w m := by
  induction m with
  | nil => simp [mapAssign]
  | cons e rest ih =>
    obtain ⟨k0, u⟩ := e
    by_cases hk : k0 = k
    · simp [mapAssign, hk]
    · simp [mapAssign, hk, ih]

theorem GetHistoryKey_congr {a b : MediaSession} (hT : a.Type_ = b.Type_)
    (hS : a.ShowTitle = b.ShowTitle) (hE : a.EpisodeTitle = b.EpisodeTitle) :
    GetHistoryKey a = GetHistoryKey b := by
  simp [GetHistoryKey, hT, hS, hE]

theorem split_at_first {c : Char} {l1 l2 r1 r2 : List Char} (h1 : c ∉ l1) (h2 : c ∉ l2)
    (h : l1 ++ c :: r1 = l2 ++ c :: r2) : l1 = l2 ∧ r1 = r2 := by
  induction l1 generalizing l2 with
  | nil =>
    cases l2 with
    | nil => simpa using h
    | cons y ys =>
      simp only [List.nil_append, List.cons_append, List.cons.injEq] at h
      exact absurd (List.mem_cons.2 (Or.inl h.1)) h2
  | cons x xs ih =>
    cases l2 with
    | nil =>
      simp only [List.nil_append, List.cons_append, List.cons.injEq] at h
      exact absurd (List.mem_cons.2 (Or.inl h.1.symm)) h1
    | cons y ys =>
      simp only [List.cons_append, List.cons.injEq] at h
      have hx : c ∉ xs := fun hc => h1 (List.mem_cons_of_mem _ hc)
      have hy : c ∉ ys := fun hc => h2 (List.mem_cons_of_mem _ hc)
      obtain ⟨e1, e2⟩ := ih hx hy h.2
      exact ⟨by rw [h.1, e1], e2⟩

theorem GetHistoryKey_data (a : MediaSession) :
    (GetHistoryKey a).data =
      a.Type_.data ++ '-' :: (a.ShowTitle.data ++ '-' :: a.EpisodeTitle.data) := by
  simp [GetHistoryKey, String.data_append]

theorem GetHistoryKey_injective_of_noDash {a b : MediaSession} (haT : noDash a.Type_)
    (haS : noDash a.ShowTitle) (hbT : noDash b.Type_) (hbS : noDash b.ShowTitle)
    (h : GetHistoryKey a = GetHistoryKey b) :
    a.Type_ = b.Type_ ∧ a.ShowTitle = b.ShowTitle ∧ a.EpisodeTitle = b.EpisodeTitle := by
  have hd : (GetHistoryKey a).data = (GetHistoryKey b).data := by rw [h]
  rw [GetHistoryKey_data, GetHistoryKey_data] at hd
  obtain ⟨e1, hrest⟩ := split_at_first haT hbT hd
  obtain ⟨e2, e3⟩ := split_at_first haS hbS hrest
  exact ⟨String.ext e1, String.ext e2, String.ext e3⟩

/-- C11: sessions with equal `Type`, `ShowTitle` and `EpisodeTitle` have the same identity
key whatever their other fields, so `Set(a)` then `Set(b)` leaves the store as `Set(b)`
alone leaves it: `Get` of the key returns `b`, the key is stored once, and on a fresh
store `GetAll` is `[b]` only. It holds of two movies with different titles. -/
theorem same_components_same_entry (h : MediaSessionHistory) (a b : MediaSession)
    (hT : a.Type_ = b.Type_) (hS : a.ShowTitle = b.ShowTitle)
    (hE : a.EpisodeTitle = b.EpisodeTitle) (hwf : h.WF) :
    GetHistoryKey a = GetHistoryKey b ∧
    (h.Set a).Set b = h.Set b ∧
    ((h.Set a).Set b).Get (GetHistoryKey a) = (b, true) ∧
    ((h.Set a).Set b).keys.count (GetHistoryKey a) = 1 ∧
    ((NewMediaSessionHistory.Set a).Set b).GetAll = [b] := by
  have hkey := GetHistoryKey_congr hT hS hE
  have hset : (h.Set a).Set b = h.Set b := by
    simp [MediaSessionHistory.Set, hkey, mapAssign_mapAssign_key]
  have hget : (h.Set b).Get (GetHistoryKey a) = (b, true) := by
    rw [hkey]; exact MediaSessionHistory.Get_Set_self h b
  refine ⟨hkey, hset, by rw [hset]; exact hget, ?_, ?_⟩
  · rw [hset]
    have hnd := (MediaSessionHistory.WF_Set hwf b).1
    apply List.count_eq_one_of_mem hnd
    have hmem : (GetHistoryKey b, b) ∈ (h.Set b).sessions := by
      apply mem_of_mapLookup
      simp [MediaSessionHistory.Set, mapLookup_mapAssign_self]
    rw [hkey]
    exact List.mem_map.2 ⟨_, hmem, rfl⟩
  · simp [MediaSessionHistory.Set, NewMediaSessionHistory, hkey, mapAssign,
      MediaSessionHistory.GetAll]

/-- The theorem of C11 at two movies with different titles, on a store that holds an
episode. -/
theorem same_components_same_entry_witness :
    (movie "playing" 45).Title ≠ otherMovie.Title ∧
    GetHistoryKey (movie "playing" 45) = GetHistoryKey otherMovie ∧
    (((NewMediaSessionHistory.Set (episode "paused" 10)).Set (movie "playing" 45)).Set
      otherMovie).GetAll = [episode "paused" 10, otherMovie] := by
  have h := same_components_same_entry (NewMediaSessionHistory.Set (episode "paused" 10))
    (movie "playing" 45) otherMovie rfl rfl rfl (by decide)
  refine ⟨by decide, h.1, ?_⟩
  rw [h.2.1]
  decide

/-- C12, evaluated on the code: sessions with the same three components have the same key,
and sessions with the same key have the same components when no `Type` and no `ShowTitle`
holds a `-`; but the episode "c" of show "a-b" and the episode "b-c" of show "a" get the
same key "episode-a-b-c" and so share one store entry. -/
theorem key_not_faithful_with_dash :
    (∀ a b : MediaSession, a.Type_ = b.Type_ → a.ShowTitle = b.ShowTitle →
      a.EpisodeTitle = b.EpisodeTitle → GetHistoryKey a = GetHistoryKey b) ∧
    (∀ a b : MediaSession, noDash a.Type_ → noDash a.ShowTitle → noDash b.Type_ →
      noDash b.ShowTitle → GetHistoryKey a = GetHistoryKey b →
      a.Type_ = b.Type_ ∧ a.ShowTitle = b.ShowTitle ∧ a.EpisodeTitle = b.EpisodeTitle) ∧
    GetHistoryKey (episodeOf "a-b" "c") = "episode-a-b-c" ∧
    GetHistoryKey (episodeOf "a" "b-c") = "episode-a-b-c" ∧
    (episodeOf "a-b" "c").ShowTitle ≠ (episodeOf "a" "b-c").ShowTitle ∧
    (episodeOf "a-b" "c").EpisodeTitle ≠ (episodeOf "a" "b-c").EpisodeTitle ∧
    ((NewMediaSessionHistory.Set (episodeOf "a-b" "c")).Set (episodeOf "a" "b-c")).GetAll =
      [episodeOf "a" "b-c"] := by
  refine ⟨fun a b hT hS hE => GetHistoryKey_congr hT hS hE,
    fun a b h1 h2 h3 h4 h => GetHistoryKey_injective_of_noDash h1 h2 h3 h4 h,
    by decide, by decide, by decide, by decide, by decide⟩

/-! ## The retry loop of the client -/

namespace request

theorem wrap64_of_range {x : Int} (h1 : -(2 ^ 63) ≤ x) (h2 : x < 2 ^ 63) : wrap64 x = x := by
  unfold wrap64
  omega

theorem backoffAt_eq (i : Nat) (h : i ≤ 34) : backoffAt i = 500000000 * 2 ^ i := by
  interval_cases i <;> decide

theorem backoffAt_quarter (i : Nat) (h : i ≤ 34) :
    Int.tdiv (backoffAt i) 4 = 125000000 * 2 ^ i := by
  interval_cases i <;> decide

theorem backoffAt_quarter_pos (i : Nat) (h : i ≤ 34) : 0 < Int.tdiv (backoffAt i) 4 := by
  rw [backoffAt_quarter i h]
  positivity

set_option maxRecDepth 8000 in
/-- After 35 doublings `backoff` has left the int64 range and is negative; a call gets
there only after the waits of `sleeps_before_attempt_34`. -/
theorem backoffAt_overflow : backoffAt 35 = 500000000 * 2 ^ 35 - 2 ^ 64 ∧ backoffAt 35 < 0 := by
  decide

theorem backoffWait_slept (env : Env) (i : Nat) (b : Int) (hd : env.done i = false)
    (hb : 0 < Int.tdiv b 4) :
    backoffWait env i b = Wait.slept (wrap64 (b + (env.rand i : Int) % Int.tdiv b 4)) := by
  have hn : ¬ Int.tdiv b 4 ≤ 0 := by omega
  simp [backoffWait, Int63n, hn, hd]

theorem backoffWait_panicked (env : Env) (i : Nat) (b : Int) (hb : Int.tdiv b 4 ≤ 0) :
    backoffWait env i b = Wait.panicked := by
  simp [backoffWait, Int63n, hb]

theorem doRequest_transport (c : Client) (env : Env) (i cl : Nat)
    (hlim : c.rateLimiter = true → env.limiter i = none) :
    doRequest c env i cl =
      (match env.transport cl with
        | Except.error cause => Except.error (Error.transport cause)
        | Except.ok resp => Except.ok resp, cl + 1) := by
  unfold doRequest
  by_cases hr : c.rateLimiter = true
  · simp only [hr, hlim hr, if_true]
    cases env.transport cl <;> rfl
  · simp only [hr, if_false]
    cases env.transport cl <;> rfl

theorem doLoop_retry (c : Client) (env : Env) (fuel i : Nat) (b : Int) (cl : Nat)
    (sl : List Int) (r : Except Error Response) (cl1 : Nat) (t : Int)
    (hreq : doRequest c env i cl = (r, cl1))
    (hr : ∀ resp, r = Except.ok resp → resp.StatusCode ∈ c.retryableStatus)
    (hi : (i : Int) < c.maxRetries) (hw : backoffWait env i b = Wait.slept t) :
    doLoop c env (fuel + 1) i b cl sl =
      doLoop c env fuel (i + 1) (wrap64 (b * 2)) cl1 (sl ++ [t]) := by
  have hle : (i : Int) ≤ c.maxRetries := le_of_lt hi
  have hne : ¬ (i : Int) = c.maxRetries := ne_of_lt hi
  rw [doLoop, if_pos hle, hreq]
  cases r with
  | error e => simp only [if_pos hi, hw]
  | ok resp =>
    have hmem := hr resp rfl
    simp [hmem, hne, hw]

theorem doLoop_return_ok (c : Client) (env : Env) (fuel i : Nat) (b : Int) (cl : Nat)
    (sl : List Int) (resp : Response) (cl1 : Nat)
    (hreq : doRequest c env i cl = (Except.ok resp, cl1)) (hi : (i : Int) ≤ c.maxRetries)
    (hret : resp.StatusCode ∉ c.retryableStatus ∨ (i : Int) = c.maxRetries) :
    doLoop c env (fuel + 1) i b cl sl =
      { outcome := Outcome.ok resp, calls := cl1, sleeps := sl } := by
  rw [doLoop, if_pos hi, hreq]
  simp only [if_pos hret]

theorem doLoop_return_err (c : Client) (env : Env) (fuel i : Nat) (b : Int) (cl : Nat)
    (sl : List Int) (e : Error) (cl1 : Nat)
    (hreq : doRequest c env i cl = (Except.error e, cl1)) (hi : (i : Int) = c.maxRetries) :
    doLoop c env (fuel + 1) i b cl sl =
      { outcome := Outcome.err e, calls := cl1, sleeps := sl } := by
  have hle : (i : Int) ≤ c.maxRetries := le_of_eq hi
  have hlt : ¬ (i : Int) < c.maxRetries := by omega
  rw [doLoop, if_pos hle, hreq]
  simp only [if_neg hlt]

theorem doLoop_retries (c : Client) (env : Env) (m : Nat) :
    ∀ (fuel a cl : Nat) (sl : List Int),
      (∀ j, j < m → c.rateLimiter = true → env.limiter (a + j) = none) →
      (∀ j, j < m → ∀ resp, env.transport (cl + j) = Except.ok resp →
        resp.StatusCode ∈ c.retryableStatus) →
      (∀ j, j < m → env.done (a + j) = false) →
      ((a + m : Nat) : Int) ≤ c.maxRetries → a + m ≤ 35 →
      doLoop c env (fuel + m) a (backoffAt a) cl sl =
        doLoop c env fuel (a + m) (backoffAt (a + m)) (cl + m)
          (sl ++ (List.range m).map (fun j => sleepAt env (a + j))) := by
  induction m with
  | zero => intro fuel a cl sl _ _ _ _ _; simp
  | succ m ih =>
    intro fuel a cl sl hlim hret hdone hmax h35
    have hreq := doRequest_transport c env a cl (by simpa using hlim 0 (Nat.succ_pos m))
    have hr : ∀ resp,
        (match env.transport cl with
          | Except.error cause => Except.error (Error.transport cause)
          | Except.ok resp => (Except.ok resp : Except Error Response)) = Except.ok resp →
        resp.StatusCode ∈ c.retryableStatus := by
      intro resp hresp
      have h0 := hret 0 (Nat.succ_pos m) resp
      cases ht : env.transport cl with
      | error cause => rw [ht] at hresp; cases hresp
      | ok r =>
        rw [ht] at hresp
        cases hresp
        exact h0 (by simpa using ht)
    have hi : (a : Int) < c.maxRetries := by
      have : ((a + (m + 1) : Nat) : Int) = (a : Int) + m + 1 := by push_cast; ring
      omega
    have hw := backoffWait_slept env a (backoffAt a) (by simpa using hdone 0 (Nat.succ_pos m))
      (backoffAt_quarter_pos a (by omega))
    have hstep := doLoop_retry c env (fuel + m) a (backoffAt a) cl sl _ (cl + 1) _ hreq hr hi hw
    have hrec := ih fuel (a + 1) (cl + 1) (sl ++ [sleepAt env a])
      (fun j hj => by
        have := hlim (j + 1) (by omega)
        rwa [show a + (j + 1) = a + 1 + j by omega] at this)
      (fun j hj => by
        have := hret (j + 1) (by omega)
        rwa [show cl + (j + 1) = cl + 1 + j by omega] at this)
      (fun j hj => by
        have := hdone (j + 1) (by omega)
        rwa [show a + (j + 1) = a + 1 + j by omega] at this)
      (by rw [show a + 1 + m = a + (m + 1) by omega]; exact hmax) (by omega)
    rw [show fuel + (m + 1) = fuel + m + 1 by omega, hstep]
    have hb : wrap64 (backoffAt a * 2) = backoffAt (a + 1) := rfl
    have hs : wrap64 (backoffAt a + (env.rand a : Int) % Int.tdiv (backoffAt a) 4) =
        sleepAt env a := rfl
    rw [hb, hs, hrec]
    have hl : (sl ++ [sleepAt env a]) ++ (List.range m).map (fun j => sleepAt env (a + 1 + j)) =
        sl ++ (List.range (m + 1)).map (fun j => sleepAt env (a + j)) := by
      rw [List.range_succ_eq_map, List.map_cons, List.map_map, List.append_assoc]
      simp only [List.singleton_append, Nat.add_zero]
      congr 2
      apply List.map_congr_left
      intro j _
      simp only [Function.comp, Nat.succ_eq_add_one]
      congr 1
      omega
    rw [hl, show a + 1 + m = a + (m + 1) by omega, show cl + 1 + m = cl + (m + 1) by omega]

theorem Do_eq_doLoop (c : Client) (env : Env) (req : Request)
    (hbody : ∀ cause, req.Body ≠ some (Except.error cause)) :
    Do c env req = doLoop c env (c.maxRetries + 1).toNat 0 (backoffAt 0) 0 [] := by
  unfold Do
  cases hb : req.Body with
  | none => rfl
  | some b =>
    cases b with
    | error cause => exact absurd hb (hbody cause)
    | ok bytes => rfl

theorem Do_retries_then (c : Client) (env : Env) (req : Request) (k : Nat)
    (hbody : ∀ cause, req.Body ≠ some (Except.error cause))
    (hk : (k : Int) ≤ c.maxRetries) (h35 : k ≤ 35)
    (hlim : ∀ j, j < k → c.rateLimiter = true → env.limiter j = none)
    (hret : ∀ j, j < k → ∀ resp, env.transport j = Except.ok resp →
      resp.StatusCode ∈ c.retryableStatus)
    (hdone : ∀ j, j < k → env.done j = false) :
    ∃ fuel, Do c env req =
      doLoop c env (fuel + 1) k (backoffAt k) k ((List.range k).map (sleepAt env)) := by
  obtain ⟨fuel, hf⟩ : ∃ fuel, (c.maxRetries + 1).toNat = fuel + 1 + k :=
    ⟨(c.maxRetries + 1).toNat - 1 - k, by omega⟩
  refine ⟨fuel, ?_⟩
  rw [Do_eq_doLoop c env req hbody, hf]
  have h := doLoop_retries c env k (fuel + 1) 0 0 []
    (by simpa using hlim) (by simpa using hret) (by simpa using hdone)
    (by simpa using hk) (by simpa using h35)
  simpa using h

theorem doLoop_not_exceeded (c : Client) (env : Env) (fuel : Nat) :
    ∀ (i : Nat) (b : Int) (cl : Nat) (sl : List Int),
      (i : Int) ≤ c.maxRetries → (fuel : Int) + i = c.maxRetries + 1 →
      (doLoop c env fuel i b cl sl).outcome ≠ Outcome.err Error.maxRetriesExceeded ∧
      (doLoop c env fuel i b cl sl).outcome ≠ Outcome.outOfFuel := by
  induction fuel with
  | zero => intro i b cl sl hi hf; omega
  | succ fuel ih =>
    intro i b cl sl hi hf
    have hnext : (i : Int) < c.maxRetries →
        (((i + 1 : Nat) : Int) ≤ c.maxRetries ∧
          (fuel : Int) + ((i + 1 : Nat) : Int) = c.maxRetries + 1) := by
      intro hlt
      push_cast at hf ⊢
      omega
    rw [doLoop, if_pos hi]
    unfold doRequest
    cases (if c.rateLimiter = true then env.limiter i else none) with
    | some cause =>
      simp only
      by_cases hlt : (i : Int) < c.maxRetries
      · simp only [if_pos hlt]
        cases backoffWait env i b with
        | slept t => exact ih _ _ _ _ (hnext hlt).1 (hnext hlt).2
        | cancelled => simp
        | panicked => simp
      · simp [hlt]
    | none =>
      simp only
      cases env.transport cl with
      | error cause =>
        simp only
        by_cases hlt : (i : Int) < c.maxRetries
        · simp only [if_pos hlt]
          cases backoffWait env i b with
          | slept t => exact ih _ _ _ _ (hnext hlt).1 (hnext hlt).2
          | cancelled => simp
          | panicked => simp
        · simp [hlt]
      | ok resp =>
        simp only
        by_cases hret : resp.StatusCode ∉ c.retryableStatus ∨ (i : Int) = c.maxRetries
        · simp [if_pos hret]
        · have hlt : (i : Int) < c.maxRetries := by
            have hne : ¬ (i : Int) = c.maxRetries := fun h => hret (Or.inr h)
            omega
          simp only [if_neg hret]
          cases backoffWait env i b with
          | slept t => exact ih _ _ _ _ (hnext hlt).1 (hnext hlt).2
          | cancelled => simp
          | panicked => simp

theorem Do_not_exceeded (c : Client) (env : Env) (req : Request) (h0 : 0 ≤ c.maxRetries) :
    (Do c env req).outcome ≠ Outcome.err Error.maxRetriesExceeded ∧
    (Do c env req).outcome ≠ Outcome.outOfFuel := by
  have hloop := doLoop_not_exceeded c env (c.maxRetries + 1).toNat 0 (wrap64 (1000000 * 500))
    0 [] (by simpa using h0) (by
      have : ((c.maxRetries + 1).toNat : Int) = c.maxRetries + 1 := Int.toNat_of_nonneg (by omega)
      simp [this])
  unfold Do
  cases req.Body with
  | none => exact hloop
  | some body =>
    cases body with
    | error cause => simp
    | ok bytes => exact hloop

set_option maxRecDepth 8000 in
/-- Outside the range of `Do_retries_then_err`: 36 retries, which a call gets to only after
the waits of 35 attempts, end in the panic of `rand.Int63n`. -/
theorem Do_panics_on_failures : Do (New [WithMaxRetries 36]) (quiet alwaysFails) plainRequest =
    { outcome := Outcome.panicked, calls := 36,
      sleeps := (List.range 35).map (sleepAt (quiet alwaysFails)) } := by
  decide

set_option maxRecDepth 8000 in
/-- Outside the range of `Do_retries_then_ok`: the same with a retryable status on every
attempt. -/
theorem Do_panics_on_statuses :
    Do (New [WithMaxRetries 36]) (quiet (statusThen 36 503 200)) plainRequest =
      { outcome := Outcome.panicked, calls := 36,
        sleeps := (List.range 35).map (sleepAt (quiet (statusThen 36 503 200))) } := by
  decide

theorem Do_retries_then_ok (c : Client) (env : Env) (req : Request) (k : Nat)
    (resp : Response) (hbody : ∀ cause, req.Body ≠ some (Except.error cause))
    (hk : (k : Int) ≤ c.maxRetries) (h35 : k ≤ 35)
    (hlim : ∀ j, j ≤ k → c.rateLimiter = true → env.limiter j = none)
    (hret : ∀ j, j < k → ∀ r, env.transport j = Except.ok r →
      r.StatusCode ∈ c.retryableStatus)
    (hdone : ∀ j, j < k → env.done j = false)
    (hlast : env.transport k = Except.ok resp)
    (hfinal : resp.StatusCode ∉ c.retryableStatus ∨ (k : Int) = c.maxRetries) :
    Do c env req =
      { outcome := Outcome.ok resp, calls := k + 1,
        sleeps := (List.range k).map (sleepAt env) } := by
  obtain ⟨fuel, hdo⟩ := Do_retries_then c env req k hbody hk h35
    (fun j hj => hlim j (le_of_lt hj)) hret hdone
  rw [hdo]
  apply doLoop_return_ok c env fuel k _ k _ resp (k + 1) _ hk hfinal
  rw [doRequest_transport c env k k (hlim k (le_refl k)), hlast]

theorem Do_retries_then_err (c : Client) (env : Env) (req : Request) (n : Nat)
    (cause : String) (hbody : ∀ cause, req.Body ≠ some (Except.error cause))
    (hn : c.maxRetries = n) (h35 : n ≤ 35)
    (hlim : ∀ j, j ≤ n → c.rateLimiter = true → env.limiter j = none)
    (hret : ∀ j, j < n → ∀ r, env.transport j = Except.ok r →
      r.StatusCode ∈ c.retryableStatus)
    (hdone : ∀ j, j < n → env.done j = false)
    (hlast : env.transport n = Except.error cause) :
    Do c env req =
      { outcome := Outcome.err (Error.transport cause), calls := n + 1,
        sleeps := (List.range n).map (sleepAt env) } := by
  obtain ⟨fuel, hdo⟩ := Do_retries_then c env req n hbody (le_of_eq hn.symm) h35
    (fun j hj => hlim j (le_of_lt hj)) hret hdone
  rw [hdo]
  apply doLoop_return_err c env fuel n _ n _ (Error.transport cause) (n + 1) _ hn.symm
  rw [doRequest_transport c env n n (hlim n (le_refl n)), hlast]

theorem sleepAt_exact (env : Env) (i : Nat) (h : i ≤ 33) :
    sleepAt env i = 500000000 * 2 ^ i + (env.rand i : Int) % (125000000 * 2 ^ i) ∧
    0 ≤ (env.rand i : Int) % (125000000 * 2 ^ i) ∧
    (env.rand i : Int) % (125000000 * 2 ^ i) < 125000000 * 2 ^ i := by
  have hpow : (2 : Int) ^ i ≤ 2 ^ 33 := pow_le_pow_right₀ (by norm_num) h
  have hpos : (0 : Int) < 2 ^ i := by positivity
  have hq : (0 : Int) < 125000000 * 2 ^ i := by positivity
  have h0 := Int.emod_nonneg (env.rand i : Int) (ne_of_gt hq)
  have h1 := Int.emod_lt_of_pos (env.rand i : Int) hq
  refine ⟨?_, h0, h1⟩
  unfold sleepAt
  rw [backoffAt_quarter i (by omega), backoffAt_eq i (by omega)]
  apply wrap64_of_range
  · generalize (2 : Int) ^ i = P at hpow hpos hq h0 h1 ⊢
    generalize (env.rand i : Int) % (125000000 * P) = J at h0 h1 ⊢
    norm_num at hpow ⊢
    omega
  · generalize (2 : Int) ^ i = P at hpow hpos hq h0 h1 ⊢
    generalize (env.rand i : Int) % (125000000 * P) = J at h0 h1 ⊢
    norm_num at hpow ⊢
    omega

theorem sleeps_before_attempt (env : Env) (n : Nat) (hn : n ≤ 34) :
    500000000 * (2 ^ n - 1) ≤ ((List.range n).map (sleepAt env)).sum := by
  induction n with
  | zero => simp
  | succ n ih =>
    have hprev := ih (by omega)
    obtain ⟨hs, hj, _⟩ := sleepAt_exact env n (by omega)
    rw [List.range_succ, List.map_append, List.sum_append, List.map_singleton,
      List.sum_singleton, hs, pow_succ]
    have hpos : (0 : Int) < 2 ^ n := by positivity
    generalize (2 : Int) ^ n = P at hprev hj hpos ⊢
    generalize (env.rand n : Int) % (125000000 * P) = J at hj ⊢
    omega

/-- The waits of the first 34 attempts of a call add up to at least 8589934591.5 seconds,
more than 272 years: a call that has slept less has made at most 33 retries. -/
theorem sleeps_before_attempt_34 (env : Env) :
    8589934591500000000 ≤ ((List.range 34).map (sleepAt env)).sum := by
  have h := sleeps_before_attempt env 34 (le_refl 34)
  norm_num at h ⊢
  exact h

/-- C13: when the transport answers its first `k` calls with a retryable status and call
`k + 1` with another status, with no cancellation and no limiter error, `Do` returns
response `k + 1` with a nil error after exactly `k + 1` invocations, for every
`k <= maxRetries` that a call can get to: `k <= 35` covers every call that has slept less
than 272 years, as the waits of the first 34 attempts alone add up to more. The default
client with 503, 503, 200 returns the 200 after 3 invocations. -/
theorem Do_retryable_statuses_then_response :
    (∀ (c : Client) (env : Env) (req : Request) (k : Nat) (resp : Response),
      (∀ cause, req.Body ≠ some (Except.error cause)) →
      (k : Int) ≤ c.maxRetries → k ≤ 35 →
      (∀ j, j ≤ k → c.rateLimiter = true → env.limiter j = none) →
      (∀ j, j < k → ∃ r, env.transport j = Except.ok r ∧
        r.StatusCode ∈ c.retryableStatus) →
      (∀ j, j < k → env.done j = false) →
      env.transport k = Except.ok resp → resp.StatusCode ∉ c.retryableStatus →
      Do c env req =
        { outcome := Outcome.ok resp, calls := k + 1,
          sleeps := (List.range k).map (sleepAt env) }) ∧
    (∀ env : Env, 8589934591500000000 ≤ ((List.range 34).map (sleepAt env)).sum) ∧
    Do (New []) (quiet (statusThen 2 503 200)) plainRequest =
      { outcome := Outcome.ok { StatusCode := 200, Body := "done" }, calls := 3,
        sleeps := [500000007, 1000000007] } := by
  refine ⟨?_, sleeps_before_attempt_34, by decide⟩
  intro c env req k resp hbody hk h35 hlim hfirst hdone hlast hnon
  apply Do_retries_then_ok c env req k resp hbody hk h35 hlim ?_ hdone hlast (Or.inl hnon)
  intro j hj r hr
  obtain ⟨r0, h0, hmem⟩ := hfirst j hj
  rw [h0] at hr
  cases hr
  exact hmem

/-- C14: with `maxRetries = n` and a transport that fails on every call, no cancellation
and no limiter error, `Do` invokes the transport exactly `n + 1` times, returns no
response and fails with the failure of the last attempt, for every `n` that a call can
get through: `n <= 35` covers every call that has slept less than 272 years, as the waits
of the first 34 attempts alone add up to more. `maxRetries = 2` gives 3 attempts. -/
theorem Do_failing_transport :
    (∀ (c : Client) (env : Env) (req : Request) (n : Nat),
      (∀ cause, req.Body ≠ some (Except.error cause)) →
      c.maxRetries = n → n ≤ 35 →
      (∀ j, j ≤ n → c.rateLimiter = true → env.limiter j = none) →
      (∀ j, j ≤ n → ∃ cause, env.transport j = Except.error cause) →
      (∀ j, j < n → env.done j = false) →
      ∃ cause, env.transport n = Except.error cause ∧
        Do c env req =
          { outcome := Outcome.err (Error.transport cause), calls := n + 1,
            sleeps := (List.range n).map (sleepAt env) }) ∧
    (∀ env : Env, 8589934591500000000 ≤ ((List.range 34).map (sleepAt env)).sum) ∧
    Do (New [WithMaxRetries 2]) (quiet alwaysFails) plainRequest =
      { outcome := Outcome.err (Error.transport "connection refused"), calls := 3,
        sleeps := [500000007, 1000000007] } := by
  refine ⟨?_, sleeps_before_attempt_34, by decide⟩
  intro c env req n hbody hn h35 hlim hfail hdone
  obtain ⟨cause, hcause⟩ := hfail n (le_refl n)
  refine ⟨cause, hcause, ?_⟩
  apply Do_retries_then_err c env req n cause hbody hn h35 hlim ?_ hdone hcause
  intro j hj r hr
  obtain ⟨c0, h0⟩ := hfail j (le_of_lt hj)
  rw [h0] at hr
  cases hr

/-- C15, refuted on the code: with `maxRetries = 2` and a transport that always fails, `Do`
fails with the transport's failure, and the default client on a transport that always
answers 503 returns the fourth 503 response with a nil error; neither gives "max retries
exceeded". -/
theorem Do_exhausted_is_not_max_retries_exceeded :
    (Do (New [WithMaxRetries 2]) (quiet alwaysFails) plainRequest).outcome =
      Outcome.err (Error.transport "connection refused") ∧
    (Do (New [WithMaxRetries 2]) (quiet alwaysFails) plainRequest).outcome ≠
      Outcome.err Error.maxRetriesExceeded ∧
    (Do (New []) (quiet (statusThen 4 503 503)) plainRequest).outcome =
      Outcome.ok { StatusCode := 503, Body := "" } ∧
    (Do (New []) (quiet (statusThen 4 503 503)) plainRequest).outcome ≠
      Outcome.err Error.maxRetriesExceeded ∧
    (Do (New []) (quiet (statusThen 4 503 503)) plainRequest).calls = 4 := by
  decide

/-- C15 as amended: when all `maxRetries + 1` attempts are used up without a non-retryable
outcome (at most 35 retries, no cancellation, no limiter error), `Do` ends with what the
last attempt gave, the transport's failure as its error or the response with a nil
error, after `maxRetries + 1` invocations, and not with "max retries exceeded". -/
theorem Do_exhausted_returns_last_attempt (c : Client) (env : Env) (req : Request) (n : Nat)
    (hbody : ∀ cause, req.Body ≠ some (Except.error cause))
    (hn : c.maxRetries = n) (h35 : n ≤ 35)
    (hlim : ∀ j, j ≤ n → c.rateLimiter = true → env.limiter j = none)
    (hret : ∀ j, j ≤ n → ∀ r, env.transport j = Except.ok r →
      r.StatusCode ∈ c.retryableStatus)
    (hdone : ∀ j, j < n → env.done j = false) :
    Do c env req =
      { outcome :=
          (match env.transport n with
            | Except.error cause => Outcome.err (Error.transport cause)
            | Except.ok resp => Outcome.ok resp),
        calls := n + 1, sleeps := (List.range n).map (sleepAt env) } ∧
    (Do c env req).outcome ≠ Outcome.err Error.maxRetriesExceeded := by
  refine ⟨?_, (Do_not_exceeded c env req (by omega)).1⟩
  cases hlast : env.transport n with
  | error cause =>
    exact Do_retries_then_err c env req n cause hbody hn h35 hlim
      (fun j hj => hret j (le_of_lt hj)) hdone hlast
  | ok resp =>
    exact Do_retries_then_ok c env req n resp hbody (le_of_eq hn.symm) h35 hlim
      (fun j hj => hret j (le_of_lt hj)) hdone hlast (Or.inr hn.symm)

/-- The amended C15 at the default client on a transport that always answers 503. -/
theorem Do_exhausted_returns_last_attempt_witness :
    Do (New []) (quiet (statusThen 4 503 503)) plainRequest =
      { outcome := Outcome.ok { StatusCode := 503, Body := "" }, calls := 4,
        sleeps := (List.range 3).map (sleepAt (quiet (statusThen 4 503 503))) } :=
  (Do_exhausted_returns_last_attempt (New []) (quiet (statusThen 4 503 503)) plainRequest 3
    (by intro cause h; cases h) (by decide) (by decide) (by intro j _ _; rfl)
    (by
      intro j hj r hr
      have hlt : j < 4 := by omega
      simp only [quiet, statusThen, if_pos hlt] at hr
      cases hr
      decide)
    (by intro j _; rfl)).1

/-- C16: `Do` hands a received status back as it is: in whatever iteration of the loop the
transport call succeeds with a status outside the retryable set, or succeeds at attempt
index `maxRetries` with any status, `Do` returns that response unchanged with a nil
error and makes no further invocation; so it is after up to 35 retried attempts, for a
404 on the first call, and for a 503 on the last permitted attempt. -/
theorem Do_returns_response_unchanged :
    (∀ (c : Client) (env : Env) (fuel i : Nat) (b : Int) (cl : Nat) (sl : List Int)
      (resp : Response),
      (i : Int) ≤ c.maxRetries → (c.rateLimiter = true → env.limiter i = none) →
      env.transport cl = Except.ok resp →
      (resp.StatusCode ∉ c.retryableStatus ∨ (i : Int) = c.maxRetries) →
      doLoop c env (fuel + 1) i b cl sl =
        { outcome := Outcome.ok resp, calls := cl + 1, sleeps := sl }) ∧
    (∀ (c : Client) (env : Env) (req : Request) (k : Nat) (resp : Response),
      (∀ cause, req.Body ≠ some (Except.error cause)) →
      (k : Int) ≤ c.maxRetries → k ≤ 35 →
      (∀ j, j ≤ k → c.rateLimiter = true → env.limiter j = none) →
      (∀ j, j < k → ∀ r, env.transport j = Except.ok r →
        r.StatusCode ∈ c.retryableStatus) →
      (∀ j, j < k → env.done j = false) →
      env.transport k = Except.ok resp →
      (resp.StatusCode ∉ c.retryableStatus ∨ (k : Int) = c.maxRetries) →
      Do c env req =
        { outcome := Outcome.ok resp, calls := k + 1,
          sleeps := (List.range k).map (sleepAt env) }) ∧
    Do (New []) (quiet (statusThen 0 503 404)) plainRequest =
      { outcome := Outcome.ok { StatusCode := 404, Body := "done" }, calls := 1,
        sleeps := [] } ∧
    Do (New [WithMaxRetries 1]) (quiet (statusThen 5 503 200)) plainRequest =
      { outcome := Outcome.ok { StatusCode := 503, Body := "" }, calls := 2,
        sleeps := [500000007] } := by
  refine ⟨?_, ?_, by decide, by decide⟩
  · intro c env fuel i b cl sl resp hi hlim ht hret
    apply doLoop_return_ok c env fuel i b cl sl resp (cl + 1) _ hi hret
    rw [doRequest_transport c env i cl hlim, ht]
  · intro c env req k resp hbody hk h35 hlim hret hdone hlast hfinal
    exact Do_retries_then_ok c env req k resp hbody hk h35 hlim hret hdone hlast hfinal

set_option maxRecDepth 8000 in
/-- Outside the range of `sleepAt_exact`: after attempt 34 the sum `backoff + jitter` can
leave the int64 range. -/
theorem sleepAt_wraps :
    sleepAt { limiter := fun _ => none, transport := alwaysFails, done := fun _ => false,
              rand := fun _ => 1000000000000000000 } 34 < 0 := by
  decide

/-- C17: the delay slept before retry `k`, that is after attempt `i = k - 1`, is `b + j`
with `b = 500ms × 2^(k-1)` and `0 <= j < b/4`, the bound `b/4` given to the random
generator being positive so that the draw succeeds; the sleeps of a call are these
delays whether the attempts failed or gave a retryable status. This is for the retries
a call can get to: `i <= 33` covers every call that has slept less than 272 years, as
the waits of the first 34 attempts add up to more. -/
theorem backoff_schedule :
    (∀ (env : Env) (i : Nat), i ≤ 33 →
      sleepAt env i = 500000000 * 2 ^ i + (env.rand i : Int) % (125000000 * 2 ^ i) ∧
      0 ≤ (env.rand i : Int) % (125000000 * 2 ^ i) ∧
      (env.rand i : Int) % (125000000 * 2 ^ i) < 125000000 * 2 ^ i ∧
      Int.tdiv (500000000 * 2 ^ i) 4 = 125000000 * 2 ^ i) ∧
    (∀ (env : Env) (i : Nat), i ≤ 34 → env.done i = false →
      0 < Int.tdiv (backoffAt i) 4 ∧
      backoffWait env i (backoffAt i) = Wait.slept (sleepAt env i)) ∧
    (∀ (c : Client) (env : Env) (req : Request) (k : Nat) (resp : Response),
      (∀ cause, req.Body ≠ some (Except.error cause)) →
      (k : Int) ≤ c.maxRetries → k ≤ 35 →
      (∀ j, j ≤ k → c.rateLimiter = true → env.limiter j = none) →
      (∀ j, j < k → ∀ r, env.transport j = Except.ok r →
        r.StatusCode ∈ c.retryableStatus) →
      (∀ j, j < k → env.done j = false) →
      env.transport k = Except.ok resp → resp.StatusCode ∉ c.retryableStatus →
      (Do c env req).sleeps = (List.range k).map (sleepAt env)) ∧
    (∀ env : Env, 8589934591500000000 ≤ ((List.range 34).map (sleepAt env)).sum) ∧
    (Do (New []) (quiet (statusThen 2 503 200)) plainRequest).sleeps =
      [500000007, 1000000007] ∧
    (Do (New [WithMaxRetries 2]) (quiet alwaysFails) plainRequest).sleeps =
      [500000007, 1000000007] := by
  refine ⟨?_, ?_, ?_, sleeps_before_attempt_34, by decide, by decide⟩
  · intro env i hi
    obtain ⟨h1, h2, h3⟩ := sleepAt_exact env i hi
    refine ⟨h1, h2, h3, ?_⟩
    rw [← backoffAt_eq i (by omega)]
    exact backoffAt_quarter i (by omega)
  · intro env i hi hd
    exact ⟨backoffAt_quarter_pos i hi,
      backoffWait_slept env i (backoffAt i) hd (backoffAt_quarter_pos i hi)⟩
  · intro c env req k resp hbody hk h35 hlim hret hdone hlast hnon
    rw [Do_retries_then_ok c env req k resp hbody hk h35 hlim hret hdone hlast (Or.inl hnon)]

theorem mem_foldl_setTrue (codes : List Int) (m : List Int) (x : Int) :
    x ∈ codes.foldl (fun m code => setTrue code m) m ↔ x ∈ m ∨ x ∈ codes := by
  induction codes generalizing m with
  | nil => simp
  | cons code rest ih =>
    rw [List.foldl_cons, ih]
    unfold setTrue
    by_cases hc : code ∈ m
    · rw [if_pos hc]
      constructor
      · rintro (h | h)
        · exact Or.inl h
        · exact Or.inr (List.mem_cons_of_mem _ h)
      · rintro (h | h)
        · exact Or.inl h
        · rcases List.mem_cons.1 h with h | h
          · exact Or.inl (h ▸ hc)
          · exact Or.inr h
    · rw [if_neg hc]
      simp only [List.mem_append, List.mem_singleton, List.mem_cons]
      tauto

/-- C18: `New()` without options has `maxRetries = 3` and exactly the retryable statuses
429, 500, 502, 503, 504; `New(WithRetryableStatus(codes...))` has exactly those and the
codes given, the option only adding to what the client has; `WithMaxRetries(n)` makes
`maxRetries` exactly `n`. -/
theorem New_defaults_and_options :
    (New []).maxRetries = 3 ∧
    (∀ x : Int, x ∈ (New []).retryableStatus ↔
      x = 429 ∨ x = 500 ∨ x = 502 ∨ x = 503 ∨ x = 504) ∧
    (∀ (codes : List Int) (x : Int), x ∈ (New [WithRetryableStatus codes]).retryableStatus ↔
      (x = 429 ∨ x = 500 ∨ x = 502 ∨ x = 503 ∨ x = 504) ∨ x ∈ codes) ∧
    (∀ (codes : List Int) (c : Client) (x : Int),
      x ∈ (WithRetryableStatus codes c).retryableStatus ↔ x ∈ c.retryableStatus ∨ x ∈ codes) ∧
    (∀ (codes : List Int), (New [WithRetryableStatus codes]).maxRetries = 3) ∧
    (∀ n : Int, (New [WithMaxRetries n]).maxRetries = n) ∧
    (∀ (n : Int) (c : Client), (WithMaxRetries n c).maxRetries = n ∧
      (WithMaxRetries n c).retryableStatus = c.retryableStatus) := by
  refine ⟨rfl, ?_, ?_, ?_, fun _ => rfl, fun _ => rfl, fun _ _ => ⟨rfl, rfl⟩⟩
  · intro x
    simp [New, StatusTooManyRequests, StatusInternalServerError, StatusBadGateway,
      StatusServiceUnavailable, StatusGatewayTimeout]
  · intro codes x
    simp only [New, List.foldl_cons, List.foldl_nil, WithRetryableStatus]
    rw [mem_foldl_setTrue]
    simp [StatusTooManyRequests, StatusInternalServerError, StatusBadGateway,
      StatusServiceUnavailable, StatusGatewayTimeout]
  · intro codes c x
    simp only [WithRetryableStatus]
    exact mem_foldl_setTrue codes c.retryableStatus x

end request

/-! ## The workers built by New -/

theorem goLookup_isSome_iff {α : Type} (key : String) (m : List (String × α)) :
    (goLookup key m).isSome = true ↔ key ∈ m.map (fun e => e.1) := by
  induction m with
  | nil => simp [goLookup]
  | cons e rest ih =>
    obtain ⟨k, v⟩ := e
    by_cases hk : k = key
    · simp [goLookup, hk]
    · have hk2 : ¬ key = k := fun h => hk h.symm
      simp [goLookup, hk, hk2, ih]

theorem goLookup_goAssign_self {α : Type} (key : String) (v : α) (m : List (String × α)) :
    goLookup key (goAssign key v m) = some v := by
  induction m with
  | nil => simp [goAssign, goLookup]
  | cons e rest ih =>
    obtain ⟨k, w⟩ := e
    by_cases hk : k = key
    · simp [goAssign, goLookup, hk]
    · simp [goAssign, goLookup, hk, ih]

theorem goLookup_goAssign_ne {α : Type} {key k1 : String} (hne : k1 ≠ key) (v : α)
    (m : List (String × α)) : goLookup k1 (goAssign key v m) = goLookup k1 m := by
  induction m with
  | nil => simp [goAssign, goLookup, Ne.symm hne]
  | cons e rest ih =>
    obtain ⟨k, w⟩ := e
    by_cases hk : k = key
    · subst hk
      simp [goAssign, goLookup, Ne.symm hne]
    · by_cases hk1 : k = k1
      · subst hk1
        simp [goAssign, goLookup, hk]
      · simp [goAssign, goLookup, hk, hk1, ih]

theorem newTargetsLoop_eq (servers : List (String × String)) (tc : Bool) (source : String)
    (ts : List String) :
    ∀ (acc : List String) (skip : Bool),
      newTargetsLoop servers tc source ts acc skip =
        (acc ++ ts.filterMap (targetServer servers source),
          if "trakt" ∈ ts ∧ "trakt" ≠ source then !tc else skip) := by
  induction ts with
  | nil => intro acc skip; simp [newTargetsLoop]
  | cons t rest ih =>
    intro acc skip
    unfold newTargetsLoop
    by_cases hs : t = source
    · rw [if_pos hs, ih]
      have hcond : ("trakt" ∈ rest ∧ "trakt" ≠ source) ↔
          ("trakt" ∈ t :: rest ∧ "trakt" ≠ source) := by
        constructor
        · rintro ⟨hm, hn⟩
          exact ⟨List.mem_cons_of_mem _ hm, hn⟩
        · rintro ⟨hm, hn⟩
          rcases List.mem_cons.1 hm with h | h
          · exact absurd (h.trans hs) hn
          · exact ⟨h, hn⟩
      have hf : targetServer servers source t = none := by
        simp [targetServer, hs]
      rw [List.filterMap_cons_none hf, if_congr hcond rfl rfl]
    · rw [if_neg hs]
      by_cases ht : t = "trakt"
      · rw [if_pos ht]
        have hn : "trakt" ≠ source := fun h => hs (ht.trans h)
        have hcond : "trakt" ∈ t :: rest ∧ "trakt" ≠ source :=
          ⟨List.mem_cons.2 (Or.inl ht.symm), hn⟩
        have hf : targetServer servers source t = none := by
          simp [targetServer, ht]
        rw [List.filterMap_cons_none hf, if_pos hcond]
        cases tc
        · simp only [if_true, ih]
          by_cases hr : "trakt" ∈ rest ∧ "trakt" ≠ source
          · rw [if_pos hr]
          · rw [if_neg hr]; rfl
        · simp only [Bool.true_eq_false, if_false, ih]
          by_cases hr : "trakt" ∈ rest ∧ "trakt" ≠ source
          · rw [if_pos hr]
          · rw [if_neg hr]; rfl
      · rw [if_neg ht]
        have hcond : ("trakt" ∈ rest ∧ "trakt" ≠ source) ↔
            ("trakt" ∈ t :: rest ∧ "trakt" ≠ source) := by
          constructor
          · rintro ⟨hm, hn⟩
            exact ⟨List.mem_cons_of_mem _ hm, hn⟩
          · rintro ⟨hm, hn⟩
            rcases List.mem_cons.1 hm with h | h
            · exact absurd h.symm ht
            · exact ⟨h, hn⟩
        cases hl : goLookup t servers with
        | none =>
          have hf : targetServer servers source t = none := by
            simp [targetServer, hl]
          simp only []
          rw [ih, List.filterMap_cons_none hf, if_congr hcond rfl rfl]
        | some target =>
          have hf : targetServer servers source t = some target := by
            simp [targetServer, hs, ht, hl]
          simp only []
          rw [ih, List.filterMap_cons_some hf, if_congr hcond rfl rfl, List.append_assoc]
          rfl

theorem keptTargets_lookup (servers : List (String × String)) (s : config.Sync) :
    (keptTargets servers s).map (fun t => goLookup t servers) =
      (s.Targets.filterMap (targetServer servers s.Source)).map some := by
  unfold keptTargets
  induction s.Targets with
  | nil => rfl
  | cons t rest ih =>
    cases hl : goLookup t servers with
    | none =>
      have hk : t ∉ servers.map (fun e => e.1) := by
        rw [← goLookup_isSome_iff, hl]; simp
      have hp : ¬ (isKept servers s.Source t = true) := by
        simp only [isKept, decide_eq_true_eq]
        exact fun h => hk h.2.2
      have hf : targetServer servers s.Source t = none := by
        simp [targetServer, hl]
      rw [List.filter_cons_of_neg hp, List.filterMap_cons_none hf, ih]
    | some target =>
      have hk : t ∈ servers.map (fun e => e.1) := by
        rw [← goLookup_isSome_iff, hl]; rfl
      by_cases hst : t = s.Source ∨ t = "trakt"
      · have hp : ¬ (isKept servers s.Source t = true) := by
          simp only [isKept, decide_eq_true_eq]
          rintro ⟨h1, h2, _⟩
          rcases hst with h | h
          · exact h1 h
          · exact h2 h
        have hf : targetServer servers s.Source t = none := by
          simp only [targetServer, if_pos hst]
        rw [List.filter_cons_of_neg hp, List.filterMap_cons_none hf, ih]
      · have hp : isKept servers s.Source t = true := by
          simp only [isKept, decide_eq_true_eq]
          exact ⟨fun h => hst (Or.inl h), fun h => hst (Or.inr h), hk⟩
        have hf : targetServer servers s.Source t = some target := by
          simp only [targetServer, if_neg hst, hl]
        rw [List.filter_cons_of_pos hp, List.filterMap_cons_some hf, List.map_cons,
          List.map_cons, ih, hl]

theorem newLoop_append (cfgInterval : String) (ParseDuration : String → Option Int)
    (servers : List (String × String)) (tc : Bool) (pre rest : List config.Sync) :
    ∀ syncs : List (String × Sync),
      newLoop cfgInterval ParseDuration servers tc (pre ++ rest) syncs =
        newLoop cfgInterval ParseDuration servers tc rest
          (newLoop cfgInterval ParseDuration servers tc pre syncs) := by
  induction pre with
  | nil => intro syncs; rfl
  | cons g gs ih =>
    intro syncs
    simp only [List.cons_append, newLoop]
    cases newSync cfgInterval ParseDuration servers tc g with
    | none => exact ih syncs
    | some syn => exact ih _

theorem newLoop_lookup_other (cfgInterval : String) (ParseDuration : String → Option Int)
    (servers : List (String × String)) (tc : Bool) (name : String) (gs : List config.Sync)
    (hgs : ∀ g ∈ gs, g.Name ≠ name) :
    ∀ syncs : List (String × Sync),
      goLookup name (newLoop cfgInterval ParseDuration servers tc gs syncs) =
        goLookup name syncs := by
  induction gs with
  | nil => intro syncs; rfl
  | cons g rest ih =>
    intro syncs
    have hrest : ∀ g0 ∈ rest, g0.Name ≠ name := fun g0 h0 =>
      hgs g0 (List.mem_cons_of_mem _ h0)
    have hg : name ≠ g.Name := Ne.symm (hgs g (List.mem_cons_self _ _))
    simp only [newLoop]
    cases newSync cfgInterval ParseDuration servers tc g with
    | none => exact ih hrest syncs
    | some syn =>
      simp only []
      rw [ih hrest, goLookup_goAssign_ne hg]

theorem New_lookup_group (cfg : config.Config) (ParseDuration : String → Option Int)
    (tc : Bool) (servers : List (String × String)) (pre post : List config.Sync)
    (s : config.Sync) (syn : Sync) (hcfg : cfg.Sync = pre ++ s :: post)
    (hpost : ∀ g ∈ post, g.Name ≠ s.Name)
    (hsyn : newSync cfg.Interval ParseDuration servers tc s = some syn) :
    goLookup s.Name (New cfg ParseDuration tc servers).1.syncs = some syn := by
  simp only [New, hcfg]
  rw [newLoop_append]
  simp only [newLoop, hsyn]
  rw [newLoop_lookup_other _ _ _ _ _ post hpost, goLookup_goAssign_self]

theorem newSync_eq (cfgInterval : String) (ParseDuration : String → Option Int)
    (servers : List (String × String)) (tc : Bool) (s : config.Sync) (source : String)
    (hsrc : goLookup s.Source servers = some source) :
    ∃ syn, newSync cfgInterval ParseDuration servers tc s = some syn ∧
      syn.source = source ∧
      syn.targets = s.Targets.filterMap (targetServer servers s.Source) ∧
      syn.trakt = (if (if "trakt" ∈ s.Targets ∧ "trakt" ≠ s.Source then !tc else true) = false
        then tc else false) ∧
      syn.sessions = NewMediaSessionHistory := by
  unfold newSync
  simp only [hsrc]
  refine ⟨_, rfl, rfl, ?_, ?_, rfl⟩
  · simp only [newTargetsLoop_eq, List.nil_append]
  · simp only [newTargetsLoop_eq]

/-- C19: for a group whose source is a known server, the worker `New` builds has as target
list the configured target names in configured order, without the names equal to the
source, equal to "trakt" or not filed in the servers map, each remaining name replaced by
the server filed under it; this worker is the one stored under the group's name when no
later group has the same name. -/
theorem New_target_list (cfgInterval : String) (ParseDuration : String → Option Int)
    (servers : List (String × String)) (traktClient : Bool) (s : config.Sync)
    (source : String) (hsrc : goLookup s.Source servers = some source) :
    ∃ syn, newSync cfgInterval ParseDuration servers traktClient s = some syn ∧
      syn.source = source ∧
      syn.targets.map some = (keptTargets servers s).map (fun t => goLookup t servers) ∧
      syn.targets.length = (keptTargets servers s).length ∧
      (∀ (cfg : config.Config) (pre post : List config.Sync),
        cfg.Interval = cfgInterval → cfg.Sync = pre ++ s :: post →
        (∀ g ∈ post, g.Name ≠ s.Name) →
        goLookup s.Name (New cfg ParseDuration traktClient servers).1.syncs = some syn) := by
  obtain ⟨syn, hsyn, h1, h2, _, _⟩ :=
    newSync_eq cfgInterval ParseDuration servers traktClient s source hsrc
  have hmap : syn.targets.map some =
      (keptTargets servers s).map (fun t => goLookup t servers) := by
    rw [h2, keptTargets_lookup]
  refine ⟨syn, hsyn, h1, hmap, ?_, ?_⟩
  · have := congrArg List.length hmap
    simpa using this
  · intro cfg pre post hint hcfg hpost
    exact New_lookup_group cfg ParseDuration traktClient servers pre post s syn hcfg hpost
      (by rw [hint]; exact hsyn)

/-- The theorem of C19 at the group with source "A" and targets [B, A]: the list is [B]. -/
theorem New_target_list_witness :
    goLookup (group ["B", "A"]).Source twoServers = some "A" ∧
    ∃ syn, newSync "10s" parseExample twoServers false (group ["B", "A"]) = some syn ∧
      syn.targets.map some = [some "B"] := by
  obtain ⟨syn, h1, _, h3, _⟩ :=
    New_target_list "10s" parseExample twoServers false (group ["B", "A"]) "A" rfl
  exact ⟨rfl, syn, h1, by rw [h3]; decide⟩

/-- C20: the worker `New` builds for a group has its Trakt client set exactly when the
Trakt client was initialised and the group's targets contain "trakt" with "trakt" not
the source name; the name "trakt" contributes no server to the target list, which is the
one the group has with every "trakt" removed, also when a server is filed as "trakt". -/
theorem New_trakt_participation (cfgInterval : String) (ParseDuration : String → Option Int)
    (servers : List (String × String)) (traktClient : Bool) (s : config.Sync) (syn : Sync)
    (h : newSync cfgInterval ParseDuration servers traktClient s = some syn) :
    (syn.trakt = true ↔ traktClient = true ∧ "trakt" ∈ s.Targets ∧ "trakt" ≠ s.Source) ∧
    targetServer servers s.Source "trakt" = none ∧
    syn.targets = s.Targets.filterMap (targetServer servers s.Source) ∧
    syn.targets =
      (s.Targets.filter (fun t => decide (t ≠ "trakt"))).filterMap
        (targetServer servers s.Source) := by
  cases hsrc : goLookup s.Source servers with
  | none => simp [newSync, hsrc] at h
  | some source =>
    obtain ⟨syn0, hsyn0, _, h2, h3, _⟩ :=
      newSync_eq cfgInterval ParseDuration servers traktClient s source hsrc
    rw [h] at hsyn0
    cases hsyn0
    have hnone : targetServer servers s.Source "trakt" = none := by
      simp [targetServer]
    refine ⟨?_, hnone, h2, ?_⟩
    · rw [h3]
      by_cases hc : "trakt" ∈ s.Targets ∧ "trakt" ≠ s.Source
      · cases traktClient <;> simp [hc]
      · cases traktClient <;> simp [hc]
    · rw [h2]
      induction s.Targets with
      | nil => rfl
      | cons t rest ih =>
        by_cases ht : t = "trakt"
        · have hp : ¬ (decide (t ≠ "trakt") = true) := by simp [ht]
          have hf : targetServer servers s.Source t = none := by rw [ht]; exact hnone
          rw [List.filterMap_cons_none hf,
            List.filter_cons_of_neg (p := fun t => decide (t ≠ "trakt")) hp, ih]
        · have hp : decide (t ≠ "trakt") = true := by simp [ht]
          rw [List.filter_cons_of_pos (p := fun t => decide (t ≠ "trakt")) hp]
          cases hf : targetServer servers s.Source t with
          | none => rw [List.filterMap_cons_none hf, List.filterMap_cons_none hf, ih]
          | some target =>
            rw [List.filterMap_cons_some hf, List.filterMap_cons_some hf, ih]

/-- The theorem of C20 at a group with targets [trakt, B], a Trakt client and a servers
map that files a server as "trakt": the client is set and the target list is [B]. -/
theorem New_trakt_participation_witness :
    (∃ syn, newSync "10s" parseExample serversWithTrakt true (group ["trakt", "B"]) =
      some syn ∧ syn.trakt = true ∧ syn.targets = ["B"]) ∧
    (∃ syn, newSync "10s" parseExample serversWithTrakt false (group ["trakt", "B"]) =
      some syn ∧ syn.trakt = false ∧ syn.targets = ["B"]) := by
  obtain ⟨syn, hsyn, _⟩ :=
    newSync_eq "10s" parseExample serversWithTrakt true (group ["trakt", "B"]) "A" rfl
  obtain ⟨syn2, hsyn2, _⟩ :=
    newSync_eq "10s" parseExample serversWithTrakt false (group ["trakt", "B"]) "A" rfl
  have h := New_trakt_participation "10s" parseExample serversWithTrakt true
    (group ["trakt", "B"]) syn hsyn
  have h2 := New_trakt_participation "10s" parseExample serversWithTrakt false
    (group ["trakt", "B"]) syn2 hsyn2
  refine ⟨⟨syn, hsyn, h.1.2 ⟨rfl, by decide, by decide⟩, by rw [h.2.2.1]; decide⟩,
    ⟨syn2, hsyn2, ?_, by rw [h2.2.2.1]; decide⟩⟩
  cases ht : syn2.trakt with
  | false => rfl
  | true => exact absurd (h2.1.1 ht).1 (by decide)

/-! ## The store across ticks -/

theorem mem_keys_mapAssign (k k1 : String) (v : MediaSession)
    (m : List (String × MediaSession)) :
    k1 ∈ (mapAssign k v m).map (fun e => e.1) ↔ k1 = k ∨ k1 ∈ m.map (fun e => e.1) := by
  by_cases hk : k ∈ m.map (fun e => e.1)
  · rw [mapAssign_of_mem v hk]
    constructor
    · exact fun h => Or.inr h
    · rintro (h | h)
      · rw [h]; exact hk
      · exact h
  · rw [mapAssign_of_not_mem v hk]
    simp only [List.map_append, List.map_cons, List.map_nil, List.mem_append,
      List.mem_singleton]
    tauto

theorem mem_keys_SetMany (h : MediaSessionHistory) (l : List MediaSession) (k : String) :
    k ∈ (h.SetMany l).keys ↔ k ∈ h.keys ∨ k ∈ l.map GetHistoryKey := by
  rw [MediaSessionHistory.SetMany_eq_foldl]
  induction l generalizing h with
  | nil => simp
  | cons x rest ih =>
    rw [List.foldl_cons, ih]
    simp only [MediaSessionHistory.keys, MediaSessionHistory.Set, mem_keys_mapAssign,
      List.map_cons, List.mem_cons]
    tauto

theorem stopped_eq_self {x : MediaSession} (hx : x.State = "stopped") :
    { x with State := "stopped" } = x := by
  cases x
  simp only at hx
  simp [hx]

theorem Get_of_mem_GetAll {h : MediaSessionHistory} (hwf : h.WF) {x : MediaSession}
    (hx : x ∈ h.GetAll) : h.Get (GetHistoryKey x) = (x, true) := by
  obtain ⟨e, he, hex⟩ := List.mem_map.1 hx
  have hk : e.1 = GetHistoryKey x := by rw [← hex]; exact hwf.2 e he
  have hmem : (GetHistoryKey x, x) ∈ h.sessions := by
    rw [← hk, ← hex]; exact he
  simp [MediaSessionHistory.Get, mapLookup_of_mem hwf.1 hmem]

theorem mem_GetAll_of_Get {h : MediaSessionHistory} {k : String} {x : MediaSession}
    (hx : h.Get k = (x, true)) : x ∈ h.GetAll := by
  unfold MediaSessionHistory.Get at hx
  cases hl : mapLookup k h.sessions with
  | none => rw [hl] at hx; simp at hx
  | some v =>
    rw [hl] at hx
    simp only [Prod.mk.injEq, and_true] at hx
    subst hx
    exact List.mem_map.2 ⟨_, mem_of_mapLookup hl, rfl⟩

theorem sync_fst_of_ne_nil (fails : Nat → Bool) (s : Sync) (active : List MediaSession)
    (hne : active ≠ []) :
    (Sync.sync fails s active).1 = { s with sessions := s.sessions.SetMany active } := by
  rw [sync_fst]
  have hlen : ¬ active.length = 0 := by
    intro h0
    exact hne (List.length_eq_zero.1 h0)
  simp only [if_neg hlen]

theorem WF_sync (fails : Nat → Bool) (s : Sync) (active : List MediaSession)
    (hwf : s.sessions.WF) : (Sync.sync fails s active).1.sessions.WF := by
  cases active with
  | nil =>
    rw [sync_fst_nil fails s hwf]
    refine ⟨?_, ?_⟩
    · have hk : (s.sessions.sessions.map
          (fun e => (e.1, { e.2 with State := "stopped" }))).map (fun e => e.1) =
          s.sessions.sessions.map (fun e => e.1) := by
        rw [List.map_map]; rfl
      simp only [MediaSessionHistory.keys, hk]
      exact hwf.1
    · intro e he
      obtain ⟨e0, he0, hee⟩ := List.mem_map.1 he
      rw [← hee]
      exact hwf.2 e0 he0
  | cons x rest =>
    rw [sync_fst_of_ne_nil fails s (x :: rest) (List.cons_ne_nil _ _)]
    exact MediaSessionHistory.WF_SetMany hwf _

theorem keys_sync (fails : Nat → Bool) (s : Sync) (active : List MediaSession)
    (hwf : s.sessions.WF) (k : String) :
    k ∈ (Sync.sync fails s active).1.sessions.keys ↔
      k ∈ s.sessions.keys ∨ k ∈ active.map GetHistoryKey := by
  cases active with
  | nil =>
    rw [sync_fst_nil fails s hwf]
    have hk : (s.sessions.sessions.map
        (fun e => (e.1, { e.2 with State := "stopped" }))).map (fun e => e.1) =
        s.sessions.sessions.map (fun e => e.1) := by
      rw [List.map_map]; rfl
    simp [MediaSessionHistory.keys, hk]
  | cons x rest =>
    rw [sync_fst_of_ne_nil fails s (x :: rest) (List.cons_ne_nil _ _)]
    exact mem_keys_SetMany s.sessions (x :: rest) k

theorem keys_ticks (runs : List ((Nat → Bool) × List MediaSession)) :
    ∀ s : Sync, s.sessions.WF →
      (ticks runs s).sessions.WF ∧ ∀ k ∈ s.sessions.keys, k ∈ (ticks runs s).sessions.keys := by
  induction runs with
  | nil => intro s hwf; exact ⟨hwf, fun k hk => hk⟩
  | cons r rest ih =>
    intro s hwf
    obtain ⟨fails, active⟩ := r
    have hstep := ih (Sync.sync fails s active).1 (WF_sync fails s active hwf)
    refine ⟨hstep.1, fun k hk => ?_⟩
    exact hstep.2 k ((keys_sync fails s active hwf k).2 (Or.inl hk))

/-- C24: `Sync.sync` removes no entry: on a store as its methods keep it, the keys after
the call are the keys before it together with the identity keys of the active sessions,
for an empty and for a non-empty list; the store stays as its methods keep it, and over
any sequence of ticks every key once stored stays stored. -/
theorem sync_never_evicts (fails : Nat → Bool) (s : Sync) (active : List MediaSession)
    (hwf : s.sessions.WF) :
    (∀ k : String, k ∈ (Sync.sync fails s active).1.sessions.keys ↔
      k ∈ s.sessions.keys ∨ k ∈ active.map GetHistoryKey) ∧
    (Sync.sync fails s active).1.sessions.WF ∧
    (∀ (runs : List ((Nat → Bool) × List MediaSession)) (k : String),
      k ∈ s.sessions.keys → k ∈ (ticks runs s).sessions.keys) :=
  ⟨keys_sync fails s active hwf, WF_sync fails s active hwf,
    fun runs k hk => (keys_ticks runs s hwf).2 k hk⟩

/-- The theorem of C24 at a worker holding a movie, over an empty tick and a tick with an
episode: the movie's key is still stored. -/
theorem sync_never_evicts_witness :
    (worker ["B"] false [movie "playing" 45]).sessions.WF ∧
    GetHistoryKey (movie "playing" 45) ∈
      (ticks [(fun _ => false, []), (fun _ => true, [episode "paused" 10])]
        (worker ["B"] false [movie "playing" 45])).sessions.keys :=
  ⟨by decide,
    (sync_never_evicts (fun _ => false) (worker ["B"] false [movie "playing" 45]) []
      (by decide)).2.2 _ _ (by decide)⟩

theorem Get_SetMany_other (h : MediaSessionHistory) (l : List MediaSession) {k : String}
    (hk : k ∉ l.map GetHistoryKey) : (h.SetMany l).Get k = h.Get k := by
  rw [MediaSessionHistory.SetMany_eq_foldl]
  apply MediaSessionHistory.Get_foldl_Set_ne
  intro y hy hyk
  exact hk (List.mem_map.2 ⟨y, hy, hyk⟩)

/-- C27: for a non-empty active-session list the worker after `Sync.sync` is the worker
with `SetMany(active)` applied to its store and nothing else changed: `Get` of a key that
no active session has returns what it returned before, and a stored session with such a
key is still in the snapshot and goes out to every target with the action of its stored
state. -/
theorem sync_nonempty_is_SetMany (fails : Nat → Bool) (s : Sync) (active : List MediaSession)
    (hne : active ≠ []) (hwf : s.sessions.WF) :
    (Sync.sync fails s active).1 = { s with sessions := s.sessions.SetMany active } ∧
    (∀ k : String, k ∉ active.map GetHistoryKey →
      (Sync.sync fails s active).1.sessions.Get k = s.sessions.Get k) ∧
    (∀ x ∈ s.sessions.GetAll, GetHistoryKey x ∉ active.map GetHistoryKey →
      x ∈ (Sync.sync fails s active).1.sessions.GetAll ∧
      (∀ t ∈ s.targets,
        (t, delivered x, getAction x) ∈ targetCalls (Sync.sync fails s active).2) ∧
      (s.trakt = true →
        (delivered x, getAction x) ∈ traktCalls (Sync.sync fails s active).2)) := by
  have hfst := sync_fst_of_ne_nil fails s active hne
  refine ⟨hfst, ?_, ?_⟩
  · intro k hk
    rw [hfst]
    exact Get_SetMany_other s.sessions active hk
  · intro x hx hk
    have hget : (s.sessions.SetMany active).Get (GetHistoryKey x) = (x, true) := by
      rw [Get_SetMany_other s.sessions active hk]
      exact Get_of_mem_GetAll hwf hx
    have hmem : x ∈ (s.sessions.SetMany active).GetAll := mem_GetAll_of_Get hget
    refine ⟨by rw [hfst]; exact hmem, ?_, ?_⟩
    · intro t ht
      rw [targetCalls_sync, List.mem_flatMap]
      exact ⟨x, hmem, List.mem_map.2 ⟨t, ht, rfl⟩⟩
    · intro htr
      rw [traktCalls_sync, if_pos htr]
      exact List.mem_map.2 ⟨x, hmem, rfl⟩

/-- The theorem of C27 at a worker holding a playing movie, polled with an episode stopped
at 95: the episode is stored with progress 95 although it goes out with 100, and the
movie is kept and goes out again as "start". -/
theorem sync_nonempty_is_SetMany_witness :
    (Sync.sync (fun _ => false) (worker ["B"] false [movie "playing" 45])
      [episode "stopped" 95]).1.sessions.GetAll =
      [movie "playing" 45, episode "stopped" 95] ∧
    targetCalls (Sync.sync (fun _ => false) (worker ["B"] false [movie "playing" 45])
      [episode "stopped" 95]).2 =
      [("B", movie "playing" 45, "start"), ("B", episode "stopped" 100, "stop")] := by
  have h := sync_nonempty_is_SetMany (fun _ => false)
    (worker ["B"] false [movie "playing" 45]) [episode "stopped" 95]
    (List.cons_ne_nil _ _) (by decide)
  refine ⟨?_, by decide⟩
  rw [h.1]
  decide

/-- C28: in a tick with no active session on a store, as its methods keep it, whose
sessions all have `State = "stopped"`, every action delivered is "stop" or "pause": "stop"
with progress 100 for stored progress > 90, "pause" with the stored session for stored
progress <= 90; the worker is left as it was, so a further empty tick delivers the same;
and the second of two consecutive empty ticks is such a tick whatever was stored. -/
theorem sync_empty_on_stopped (fails : Nat → Bool) (s : Sync) (hwf : s.sessions.WF)
    (hstopped : ∀ x ∈ s.sessions.GetAll, x.State = "stopped") :
    (∀ (t : String) (x : MediaSession) (a : String),
      (t, x, a) ∈ targetCalls (Sync.sync fails s []).2 → a = "stop" ∨ a = "pause") ∧
    (∀ (x : MediaSession) (a : String),
      (x, a) ∈ traktCalls (Sync.sync fails s []).2 → a = "stop" ∨ a = "pause") ∧
    (∀ y ∈ s.sessions.GetAll,
      (Float64.gt y.Progress (Float64.ofNat 90) = true →
        getAction y = "stop" ∧ delivered y = { y with Progress := Float64.ofNat 100 }) ∧
      (Float64.le y.Progress (Float64.ofNat 90) = true →
        getAction y = "pause" ∧ delivered y = y)) ∧
    (Sync.sync fails s []).1 = s ∧
    (∀ fails2 : Nat → Bool,
      targetCalls (Sync.sync fails2 (Sync.sync fails s []).1 []).2 =
        targetCalls (Sync.sync fails s []).2 ∧
      traktCalls (Sync.sync fails2 (Sync.sync fails s []).1 []).2 =
        traktCalls (Sync.sync fails s []).2) ∧
    (∀ (s0 : Sync) (f1 f2 : Nat → Bool), s0.sessions.WF →
      ∀ (t : String) (x : MediaSession) (a : String),
        (t, x, a) ∈ targetCalls (Sync.sync f2 (Sync.sync f1 s0 []).1 []).2 →
          a = "stop" ∨ a = "pause") := by
  have haction : ∀ y : MediaSession, y.State = "stopped" →
      getAction y = "stop" ∨ getAction y = "pause" := by
    intro y hy
    by_cases hp : Float64.gt y.Progress (Float64.ofNat 90) = true
    · exact Or.inl (by simp [getAction, hy, hp])
    · exact Or.inr (by simp [getAction, hy, hp])
  have hcalls : ∀ (w : Sync) (f : Nat → Bool),
      (∀ x ∈ w.sessions.GetAll, x.State = "stopped") →
      ∀ (t : String) (x : MediaSession) (a : String),
        (t, x, a) ∈ targetCalls (Sync.sync f w []).2 → a = "stop" ∨ a = "pause" := by
    intro w f hw t x a hmem
    rw [targetCalls_sync, List.mem_flatMap] at hmem
    obtain ⟨y, hy, hin⟩ := hmem
    obtain ⟨t0, _, heq⟩ := List.mem_map.1 hin
    simp only [Prod.mk.injEq] at heq
    rw [← heq.2.2]
    exact haction y (hw y hy)
  have hsame : (Sync.sync fails s []).1 = s := by
    have hs : (Sync.sync fails s []).1.sessions = s.sessions := by
      rw [sync_fst_nil fails s hwf]
      have hmap : s.sessions.sessions.map
          (fun e => (e.1, { e.2 with State := "stopped" })) = s.sessions.sessions := by
        conv_rhs => rw [← List.map_id s.sessions.sessions]
        apply List.map_congr_left
        intro e he
        have hst : e.2.State = "stopped" := hstopped e.2 (List.mem_map.2 ⟨e, he, rfl⟩)
        rw [stopped_eq_self hst]
        rfl
      rw [hmap]
    have hrec : (Sync.sync fails s []).1 =
        { s with sessions := (Sync.sync fails s []).1.sessions } := rfl
    rw [hrec, hs]
  refine ⟨hcalls s fails hstopped, ?_, ?_, hsame, ?_, ?_⟩
  · intro x a hmem
    rw [traktCalls_sync] at hmem
    by_cases htr : s.trakt = true
    · rw [if_pos htr] at hmem
      obtain ⟨y, hy, heq⟩ := List.mem_map.1 hmem
      simp only [Prod.mk.injEq] at heq
      rw [← heq.2]
      exact haction y (hstopped y hy)
    · rw [if_neg htr] at hmem
      simp at hmem
  · intro y hy
    have hst := hstopped y hy
    refine ⟨fun hp => ?_, fun hp => ?_⟩
    · have ha : getAction y = "stop" := (getAction_eq_stop_iff y).2 ⟨hst, hp⟩
      exact ⟨ha, delivered_of_stop ha⟩
    · have hg := Float64.gt_false_of_le hp
      have ha : getAction y = "pause" := by simp [getAction, hst, hg]
      exact ⟨ha, delivered_of_not_stop (by rw [ha]; decide)⟩
  · intro fails2
    rw [hsame, targetCalls_sync, targetCalls_sync, traktCalls_sync, traktCalls_sync]
    exact ⟨rfl, rfl⟩
  · intro s0 f1 f2 hwf0
    apply hcalls
    intro x hx
    rw [sync_fst_nil f1 s0 hwf0] at hx
    simp only [MediaSessionHistory.GetAll, List.map_map, List.mem_map] at hx
    obtain ⟨e, _, he⟩ := hx
    rw [← he]
    rfl

/-- The theorem of C28 at a worker holding a movie stopped at 95 and an episode stopped at
10: the tick delivers "stop" at 100 and "pause" at 10. -/
theorem sync_empty_on_stopped_witness :
    (worker ["B"] false [movie "stopped" 95, episode "stopped" 10]).sessions.WF ∧
    targetCalls (Sync.sync (fun _ => false)
      (worker ["B"] false [movie "stopped" 95, episode "stopped" 10]) []).2 =
      [("B", movie "stopped" 100, "stop"), ("B", episode "stopped" 10, "pause")] ∧
    (Sync.sync (fun _ => false)
      (worker ["B"] false [movie "stopped" 95, episode "stopped" 10]) []).1 =
      worker ["B"] false [movie "stopped" 95, episode "stopped" 10] :=
  ⟨by decide, by decide,
    (sync_empty_on_stopped (fun _ => false)
      (worker ["B"] false [movie "stopped" 95, episode "stopped" 10]) (by decide)
      (by decide)).2.2.2.1⟩

/-! ## The poll loop -/

theorem scrobbleLoop_returned (signals : List Signal) :
    ∀ (s : Sync) (trace : List Event) (r : Sync) (err : Option String) (tr : List Event),
      scrobbleLoop signals s trace = (Run.returned r err, tr) →
      err = none ∧ ∃ pre post, signals = pre ++ Signal.done :: post := by
  induction signals with
  | nil => intro s trace r err tr h; simp [scrobbleLoop] at h
  | cons sig rest ih =>
    intro s trace r err tr h
    cases sig with
    | done =>
      simp only [scrobbleLoop, Prod.mk.injEq, Run.returned.injEq] at h
      exact ⟨h.1.2.symm, [], rest, rfl⟩
    | tick poll fails =>
      cases poll with
      | error e =>
        obtain ⟨h1, pre, post, h2⟩ := ih _ _ r err tr (by simpa [scrobbleLoop] using h)
        exact ⟨h1, Signal.tick (Except.error e) fails :: pre, post, by rw [h2]; rfl⟩
      | ok active =>
        obtain ⟨h1, pre, post, h2⟩ := ih _ _ r err tr (by simpa [scrobbleLoop] using h)
        exact ⟨h1, Signal.tick (Except.ok active) fails :: pre, post, by rw [h2]; rfl⟩

theorem scrobbleLoop_not_panicked (signals : List Signal) :
    ∀ (s : Sync) (trace : List Event), (scrobbleLoop signals s trace).1 ≠ Run.panicked := by
  induction signals with
  | nil => intro s trace; simp [scrobbleLoop]
  | cons sig rest ih =>
    intro s trace
    cases sig with
    | done => simp [scrobbleLoop]
    | tick poll fails =>
      cases poll with
      | error e => simpa [scrobbleLoop] using ih _ _
      | ok active => simpa [scrobbleLoop] using ih _ _

theorem scrobbleLoop_failed_polls (errs : List (String × (Nat → Bool))) :
    ∀ (rest : List Signal) (s : Sync) (trace : List Event),
      scrobbleLoop (errs.map (fun e => Signal.tick (Except.error e.1) e.2) ++ rest) s trace =
        scrobbleLoop rest s (trace ++ errs.map (fun _ => Event.logError s.source)) := by
  induction errs with
  | nil => intro rest s trace; simp
  | cons e tl ih =>
    intro rest s trace
    have hstep : scrobbleLoop (Signal.tick (Except.error e.1) e.2 ::
        (tl.map (fun e => Signal.tick (Except.error e.1) e.2) ++ rest)) s trace =
        scrobbleLoop (tl.map (fun e => Signal.tick (Except.error e.1) e.2) ++ rest) s
          (trace ++ [Event.logError s.source]) := rfl
    rw [List.map_cons, List.cons_append, hstep, ih]
    simp

/-- C23: a tick on which `GetSessions` fails leaves the worker and its store as they were,
adds only a line of the log to the trace, no `Scrobble` call on a target or on Trakt, and
the loop goes on with the next signal; after any number of such ticks the worker is still
running, unchanged. The loop returns only on cancellation and then returns nil. -/
theorem scrobble_skips_failed_poll :
    (∀ (e : String) (fails : Nat → Bool) (rest : List Signal) (s : Sync)
      (trace : List Event),
      scrobbleLoop (Signal.tick (Except.error e) fails :: rest) s trace =
        scrobbleLoop rest s (trace ++ [Event.logError s.source])) ∧
    (∀ src : String, targetCalls [Event.logError src] = [] ∧
      traktCalls [Event.logError src] = []) ∧
    (∀ (errs : List (String × (Nat → Bool))) (s : Sync),
      scrobbleLoop (errs.map (fun e => Signal.tick (Except.error e.1) e.2)) s [] =
        (Run.running s, errs.map (fun _ => Event.logError s.source))) ∧
    (∀ (signals : List Signal) (s r : Sync) (err : Option String) (tr : List Event),
      (Sync.scrobble signals s) = (Run.returned r err, tr) →
        err = none ∧ ∃ pre post, signals = pre ++ Signal.done :: post) ∧
    (∀ (signals : List Signal) (s : Sync), 0 < s.interval →
      (Sync.scrobble signals s).1 ≠ Run.panicked) := by
  refine ⟨fun e fails rest s trace => rfl, fun src => ⟨rfl, rfl⟩, ?_, ?_, ?_⟩
  · intro errs s
    have h := scrobbleLoop_failed_polls errs [] s []
    simpa [scrobbleLoop] using h
  · intro signals s r err tr h
    unfold Sync.scrobble at h
    by_cases hi : s.interval ≤ 0
    · rw [if_pos hi] at h
      simp at h
    · rw [if_neg hi] at h
      exact scrobbleLoop_returned signals s [] r err tr h
  · intro signals s hi
    unfold Sync.scrobble
    rw [if_neg (by omega)]
    exact scrobbleLoop_not_panicked signals s []

/-! ## Which groups get a worker -/

theorem newSync_none (cfgInterval : String) (ParseDuration : String → Option Int)
    (servers : List (String × String)) (tc : Bool) (g : config.Sync)
    (h : goLookup g.Source servers = none) :
    newSync cfgInterval ParseDuration servers tc g = none := by
  simp [newSync, h]

theorem newSync_isSome (cfgInterval : String) (ParseDuration : String → Option Int)
    (servers : List (String × String)) (tc : Bool) (g : config.Sync) :
    (newSync cfgInterval ParseDuration servers tc g).isSome = sourceKnown servers g := by
  unfold sourceKnown
  cases h : goLookup g.Source servers with
  | none => simp [newSync_none _ _ _ _ _ h]
  | some source =>
    obtain ⟨syn, hsyn, _⟩ := newSync_eq cfgInterval ParseDuration servers tc g source h
    simp [hsyn]

theorem newLoop_filter (cfgInterval : String) (ParseDuration : String → Option Int)
    (servers : List (String × String)) (tc : Bool) (gs : List config.Sync) :
    ∀ syncs : List (String × Sync),
      newLoop cfgInterval ParseDuration servers tc gs syncs =
        newLoop cfgInterval ParseDuration servers tc (gs.filter (sourceKnown servers))
          syncs := by
  induction gs with
  | nil => intro syncs; rfl
  | cons g rest ih =>
    intro syncs
    have hsome := newSync_isSome cfgInterval ParseDuration servers tc g
    cases hn : newSync cfgInterval ParseDuration servers tc g with
    | none =>
      have hk : ¬ (sourceKnown servers g = true) := by
        rw [← hsome, hn]; simp
      rw [List.filter_cons_of_neg hk]
      simp only [newLoop, hn]
      exact ih syncs
    | some syn =>
      have hk : sourceKnown servers g = true := by
        rw [← hsome, hn]; rfl
      rw [List.filter_cons_of_pos hk]
      simp only [newLoop, hn]
      exact ih _

theorem newLoop_lookup_none (cfgInterval : String) (ParseDuration : String → Option Int)
    (servers : List (String × String)) (tc : Bool) (name : String)
    (gs : List config.Sync)
    (hgs : ∀ g ∈ gs, g.Name = name → goLookup g.Source servers = none) :
    ∀ syncs : List (String × Sync), goLookup name syncs = none →
      goLookup name (newLoop cfgInterval ParseDuration servers tc gs syncs) = none := by
  induction gs with
  | nil => intro syncs h; exact h
  | cons g rest ih =>
    intro syncs h
    have hrest : ∀ g0 ∈ rest, g0.Name = name → goLookup g0.Source servers = none :=
      fun g0 h0 => hgs g0 (List.mem_cons_of_mem _ h0)
    cases hn : newSync cfgInterval ParseDuration servers tc g with
    | none =>
      simp only [newLoop, hn]
      exact ih hrest syncs h
    | some syn =>
      simp only [newLoop, hn]
      apply ih hrest
      have hne : name ≠ g.Name := by
        intro heq
        have hnone := hgs g (List.mem_cons_self _ _) heq.symm
        rw [newSync_none _ _ _ _ _ hnone] at hn
        cases hn
      rw [goLookup_goAssign_ne hne]
      exact h

/-- C21, refuted on the code: the group "g" with source A and targets [B, Z], where Z is
not the source, not "trakt" and not a known server, gets a worker all the same, with
target list [B]. -/
theorem New_builds_group_with_unknown_target :
    goLookup "Z" twoServers = none ∧
    (New (configOf [group ["B", "Z"]]) parseExample false twoServers).2 = none ∧
    (goLookup "g" (New (configOf [group ["B", "Z"]]) parseExample false
      twoServers).1.syncs).map (fun syn => (syn.source, syn.targets)) =
      some ("A", ["B"]) := by
  decide

/-- C21 as amended: `New` always returns a nil error; a group whose source name is not a
known server gets no worker, no worker is stored under a name that only such groups
carry, and the result is the one for the configuration without these groups; a group
with a known source gets a worker also when it lists an unknown target name. -/
theorem New_skips_unknown_source (cfg : config.Config)
    (ParseDuration : String → Option Int) (traktClient : Bool)
    (servers : List (String × String)) :
    (New cfg ParseDuration traktClient servers).2 = none ∧
    (∀ g : config.Sync, goLookup g.Source servers = none →
      newSync cfg.Interval ParseDuration servers traktClient g = none) ∧
    (∀ name : String,
      (∀ g ∈ cfg.Sync, g.Name = name → goLookup g.Source servers = none) →
      goLookup name (New cfg ParseDuration traktClient servers).1.syncs = none) ∧
    New cfg ParseDuration traktClient servers =
      New { cfg with Sync := cfg.Sync.filter (sourceKnown servers) } ParseDuration
        traktClient servers ∧
    (∀ (g : config.Sync) (source : String), goLookup g.Source servers = some source →
      ∃ syn, newSync cfg.Interval ParseDuration servers traktClient g = some syn ∧
        syn.source = source ∧
        syn.targets = g.Targets.filterMap (targetServer servers g.Source)) := by
  refine ⟨rfl, fun g h => newSync_none _ _ _ _ _ h, ?_, ?_, ?_⟩
  · intro name h
    exact newLoop_lookup_none cfg.Interval ParseDuration servers traktClient name cfg.Sync h
      [] rfl
  · simp only [New]
    rw [newLoop_filter]
  · intro g source h
    obtain ⟨syn, h1, h2, h3, _⟩ :=
      newSync_eq cfg.Interval ParseDuration servers traktClient g source h
    exact ⟨syn, h1, h2, h3⟩

theorem goAssign_of_not_mem {α : Type} {key : String} (v : α) {m : List (String × α)}
    (hk : key ∉ m.map (fun e => e.1)) : goAssign key v m = m ++ [(key, v)] := by
  induction m with
  | nil => simp [goAssign]
  | cons e rest ih =>
    obtain ⟨k0, w⟩ := e
    simp only [List.map_cons, List.mem_cons, not_or] at hk
    simp [goAssign, Ne.symm hk.1, ih hk.2]

theorem newLoop_keys (cfgInterval : String) (ParseDuration : String → Option Int)
    (servers : List (String × String)) (tc : Bool) (gs : List config.Sync)
    (hknown : ∀ g ∈ gs, sourceKnown servers g = true) :
    ∀ syncs : List (String × Sync),
      (syncs.map (fun e => e.1) ++ gs.map (fun g => g.Name)).Nodup →
      (newLoop cfgInterval ParseDuration servers tc gs syncs).map (fun e => e.1) =
        syncs.map (fun e => e.1) ++ gs.map (fun g => g.Name) := by
  induction gs with
  | nil => intro syncs _; simp [newLoop]
  | cons g rest ih =>
    intro syncs hnd
    have hrest : ∀ g0 ∈ rest, sourceKnown servers g0 = true :=
      fun g0 h0 => hknown g0 (List.mem_cons_of_mem _ h0)
    have hg := hknown g (List.mem_cons_self _ _)
    rw [← newSync_isSome cfgInterval ParseDuration servers tc g] at hg
    obtain ⟨syn, hsyn⟩ := Option.isSome_iff_exists.1 hg
    have hnot : g.Name ∉ syncs.map (fun e => e.1) := by
      intro hmem
      rw [List.map_cons] at hnd
      exact (List.nodup_append.1 hnd).2.2 hmem (List.mem_cons_self _ _)
    simp only [newLoop, hsyn]
    rw [goAssign_of_not_mem syn hnot]
    have hnd2 : ((syncs ++ [(g.Name, syn)]).map (fun e => e.1) ++
        rest.map (fun g => g.Name)).Nodup := by
      simpa using hnd
    rw [ih hrest _ hnd2]
    simp

/-- C22, refuted on the code: two valid groups that are both named "g" leave one worker,
not two; and a valid group with targets [B, A] and source A gets the target list [B],
not its own targets. -/
theorem New_duplicate_names_one_worker :
    (configOf [groupNamed "g" none, groupNamed "g" none]).Sync.length = 2 ∧
    (New (configOf [groupNamed "g" none, groupNamed "g" none]) parseExample false
      twoServers).1.syncs.length = 1 ∧
    (goLookup "g" (New (configOf [group ["B", "A"]]) parseExample false
      twoServers).1.syncs).map (fun syn => syn.targets) = some ["B"] := by
  decide

/-- C22 as amended: when every group names a known server as source and known servers as
targets, and no two groups have the same name, `New` holds as many workers as there are
groups, and the worker stored under a group's name has that group's source and, in order,
the servers of its targets other than the source and "trakt". -/
theorem New_one_worker_per_group (cfg : config.Config) (ParseDuration : String → Option Int)
    (traktClient : Bool) (servers : List (String × String))
    (hvalid : ∀ g ∈ cfg.Sync, g.Source ∈ servers.map (fun e => e.1) ∧
      ∀ t ∈ g.Targets, t ∈ servers.map (fun e => e.1))
    (hnames : (cfg.Sync.map (fun g => g.Name)).Nodup) :
    (New cfg ParseDuration traktClient servers).1.syncs.length = cfg.Sync.length ∧
    (∀ g ∈ cfg.Sync, ∃ syn,
      goLookup g.Name (New cfg ParseDuration traktClient servers).1.syncs = some syn ∧
      goLookup g.Source servers = some syn.source ∧
      syn.targets.map some = (otherTargets g).map (fun t => goLookup t servers)) := by
  have hknown : ∀ g ∈ cfg.Sync, sourceKnown servers g = true := by
    intro g hg
    unfold sourceKnown
    exact (goLookup_isSome_iff g.Source servers).2 (hvalid g hg).1
  refine ⟨?_, ?_⟩
  · have hkeys := newLoop_keys cfg.Interval ParseDuration servers traktClient cfg.Sync hknown
      [] (by simpa using hnames)
    have hlen := congrArg List.length hkeys
    simpa [New] using hlen
  · intro g hg
    obtain ⟨source, hsrc⟩ := Option.isSome_iff_exists.1 (hknown g hg)
    obtain ⟨syn, hsyn, h1, h2, _⟩ :=
      newSync_eq cfg.Interval ParseDuration servers traktClient g source hsrc
    obtain ⟨pre, post, hsplit⟩ := List.append_of_mem hg
    have hpost : ∀ g0 ∈ post, g0.Name ≠ g.Name := by
      intro g0 h0 heq
      rw [hsplit, List.map_append, List.map_cons] at hnames
      have hnd := (List.nodup_append.1 hnames).2.1
      rw [List.nodup_cons] at hnd
      exact hnd.1 (List.mem_map.2 ⟨g0, h0, heq⟩)
    refine ⟨syn, New_lookup_group cfg ParseDuration traktClient servers pre post g syn hsplit
      hpost hsyn, by rw [h1]; exact hsrc, ?_⟩
    rw [h2, ← keptTargets_lookup]
    have hsame : keptTargets servers g = otherTargets g := by
      unfold keptTargets otherTargets
      apply List.filter_congr
      intro t ht
      have hk := (hvalid g hg).2 t ht
      simp [isKept, hk]
    rw [hsame]

/-- The theorem of C22 at two groups "g1" and "g2" over the servers A and B. -/
theorem New_one_worker_per_group_witness :
    (New (configOf [groupNamed "g1" none, groupNamed "g2" (some "1m")]) parseExample false
      twoServers).1.syncs.length = 2 :=
  (New_one_worker_per_group (configOf [groupNamed "g1" none, groupNamed "g2" (some "1m")])
    parseExample false twoServers (by decide) (by decide)).1

/-! ## The poll interval -/

theorem newSync_interval (cfgInterval : String) (ParseDuration : String → Option Int)
    (servers : List (String × String)) (tc : Bool) (g : config.Sync) (syn : Sync)
    (h : newSync cfgInterval ParseDuration servers tc g = some syn) :
    syn.interval =
      (match ParseDuration (match g.Interval with
          | some i => i
          | none => cfgInterval) with
        | some d => d
        | none => 30 * 1000000000) := by
  cases hsrc : goLookup g.Source servers with
  | none => rw [newSync_none _ _ _ _ _ hsrc] at h; cases h
  | some source =>
    simp only [newSync, hsrc, Option.some.injEq] at h
    rw [← h]

theorem scrobble_panics (signals : List Signal) (s : Sync) (hi : s.interval ≤ 0) :
    (Sync.scrobble signals s).1 = Run.panicked := by
  unfold Sync.scrobble
  rw [if_pos hi]

/-- C30, evaluated on the code: `Validate` accepts a group with the override "0s" (and
"-5s"), which `time.ParseDuration` parses to 0 (to -5s); `New` gives the worker that
interval, since 30 seconds are substituted only on a parse error, and `Sync.scrobble`
panics in `time.NewTicker`. `Validate` rejects the string "0" only. -/
theorem New_keeps_nonpositive_interval :
    (∀ (cfgInterval : String) (ParseDuration : String → Option Int)
      (servers : List (String × String)) (tc : Bool) (g : config.Sync) (syn : Sync),
      newSync cfgInterval ParseDuration servers tc g = some syn →
      syn.interval =
        (match ParseDuration (match g.Interval with
            | some i => i
            | none => cfgInterval) with
          | some d => d
          | none => 30 * 1000000000)) ∧
    config.Validate [("A", plexServer), ("B", plexServer)]
      (configOf [groupNamed "g" (some "0s")]) = none ∧
    (goLookup "g" (New (configOf [groupNamed "g" (some "0s")]) parseTable false
      twoServers).1.syncs).map (fun syn => syn.interval) = some 0 ∧
    (∀ (signals : List Signal) (syn : Sync),
      goLookup "g" (New (configOf [groupNamed "g" (some "0s")]) parseTable false
        twoServers).1.syncs = some syn →
      (Sync.scrobble signals syn).1 = Run.panicked) ∧
    config.Validate [("A", plexServer), ("B", plexServer)]
      (configOf [groupNamed "g" (some "-5s")]) = none ∧
    (goLookup "g" (New (configOf [groupNamed "g" (some "-5s")]) parseTable false
      twoServers).1.syncs).map (fun syn => syn.interval) = some (-5000000000) ∧
    config.Validate [("A", plexServer), ("B", plexServer)]
      (configOf [groupNamed "g" (some "0")]) = some "sync g interval cannot be zero" := by
  refine ⟨fun a b c d g syn h => newSync_interval a b c d g syn h, by decide, by decide, ?_,
    by decide, by decide, by decide⟩
  intro signals syn hsyn
  apply scrobble_panics
  have h0 : (goLookup "g" (New (configOf [groupNamed "g" (some "0s")]) parseTable false
      twoServers).1.syncs).map (fun syn => syn.interval) = some 0 := by decide
  rw [hsyn] at h0
  simp only [Option.map_some', Option.some.injEq] at h0
  omega

namespace request

/-- C29, refuted on the code: with `maxRetries = -1` and a request whose body cannot be
read, `Do` fails with the read error, not with "max retries exceeded". -/
theorem Do_unread_body_is_not_max_retries_exceeded :
    (New [WithMaxRetries (-1)]).maxRetries < 0 ∧
    Do (New [WithMaxRetries (-1)]) (quiet alwaysFails)
      { Body := some (Except.error "unexpected EOF") } =
      { outcome := Outcome.err (Error.readingRequestBody "unexpected EOF"), calls := 0,
        sleeps := [] } ∧
    (Do (New [WithMaxRetries (-1)]) (quiet alwaysFails)
      { Body := some (Except.error "unexpected EOF") }).outcome ≠
      Outcome.err Error.maxRetriesExceeded := by
  decide

/-- C29 as amended: with `maxRetries >= 0` `Do` never returns "max retries exceeded",
whatever the request and the transport do, and the loop is always left from inside its
body; that error is returned exactly when `maxRetries < 0` and the request body could be
read, and then without any invocation of the transport. -/
theorem Do_max_retries_exceeded_iff (c : Client) (env : Env) (req : Request) :
    (0 ≤ c.maxRetries → (Do c env req).outcome ≠ Outcome.err Error.maxRetriesExceeded) ∧
    ((Do c env req).outcome = Outcome.err Error.maxRetriesExceeded ↔
      c.maxRetries < 0 ∧ ∀ cause, req.Body ≠ some (Except.error cause)) ∧
    (c.maxRetries < 0 → (∀ cause, req.Body ≠ some (Except.error cause)) →
      Do c env req =
        { outcome := Outcome.err Error.maxRetriesExceeded, calls := 0, sleeps := [] }) ∧
    (Do c env req).outcome ≠ Outcome.outOfFuel := by
  have hneg : c.maxRetries < 0 → (∀ cause, req.Body ≠ some (Except.error cause)) →
      Do c env req =
        { outcome := Outcome.err Error.maxRetriesExceeded, calls := 0, sleeps := [] } := by
    intro hlt hbody
    rw [Do_eq_doLoop c env req hbody]
    have hfuel : (c.maxRetries + 1).toNat = 0 := by omega
    have hcond : ¬ ((0 : Nat) : Int) ≤ c.maxRetries := by omega
    rw [hfuel, doLoop, if_neg hcond]
  have hbad : ∀ cause, req.Body = some (Except.error cause) →
      (Do c env req).outcome = Outcome.err (Error.readingRequestBody cause) := by
    intro cause hb
    simp [Do, hb]
  refine ⟨fun h0 => (Do_not_exceeded c env req h0).1, ?_, hneg, ?_⟩
  · constructor
    · intro hout
      refine ⟨?_, ?_⟩
      · by_contra hge
        exact (Do_not_exceeded c env req (by omega)).1 hout
      · intro cause hb
        rw [hbad cause hb] at hout
        cases hout
    · rintro ⟨hlt, hbody⟩
      rw [hneg hlt hbody]
  · by_cases h0 : 0 ≤ c.maxRetries
    · exact (Do_not_exceeded c env req h0).2
    · by_cases hbody : ∀ cause, req.Body ≠ some (Except.error cause)
      · rw [hneg (by omega) hbody]
        simp
      · push_neg at hbody
        obtain ⟨cause, hb⟩ := hbody
        rw [hbad cause hb]
        simp

end request

/-! ## Progress -/

namespace misc

theorem roundHalfEven_intCast (n : Int) : roundHalfEven (n : ℚ) = n := by
  simp [roundHalfEven]

theorem roundHalfEven_bounds (q : ℚ) : ⌊q⌋ ≤ roundHalfEven q ∧ roundHalfEven q ≤ ⌊q⌋ + 1 := by
  unfold roundHalfEven
  split_ifs <;> constructor <;> omega

theorem roundHalfEven_mono {a b : ℚ} (h : a ≤ b) : roundHalfEven a ≤ roundHalfEven b := by
  have hf : ⌊a⌋ ≤ ⌊b⌋ := Int.floor_mono h
  rcases lt_or_eq_of_le hf with hlt | heq
  · have h1 := (roundHalfEven_bounds a).2
    have h2 := (roundHalfEven_bounds b).1
    omega
  · unfold roundHalfEven
    rw [heq]
    have hfrac : a - ⌊b⌋ ≤ b - ⌊b⌋ := by linarith
    split_ifs <;> first | omega | (exfalso; linarith)


theorem two_zpow_split (e : Int) : (2 : ℚ) ^ e = 4503599627370496 * 2 ^ (e - 52) := by
  have h : (2 : ℚ) ^ e = 2 ^ (52 : Int) * 2 ^ (e - 52) := by
    rw [← zpow_add₀ (by norm_num : (2 : ℚ) ≠ 0)]
    congr 1
    omega
  rw [h]
  norm_num

theorem two_zpow_split_succ (e : Int) :
    (2 : ℚ) ^ (e + 1) = 9007199254740992 * 2 ^ (e - 52) := by
  have h : (2 : ℚ) ^ (e + 1) = 2 ^ (53 : Int) * 2 ^ (e - 52) := by
    rw [← zpow_add₀ (by norm_num : (2 : ℚ) ≠ 0)]
    congr 1
    omega
  rw [h]
  norm_num

theorem round64_bounds {x : ℚ} (hx : 0 < x) :
    (2 : ℚ) ^ Int.log 2 x ≤ round64 x ∧ round64 x ≤ 2 ^ (Int.log 2 x + 1) := by
  have hu : (0 : ℚ) < 2 ^ (Int.log 2 x - 52) := zpow_pos (by norm_num) _
  have hlo : (2 : ℚ) ^ Int.log 2 x ≤ x := by
    have := Int.zpow_log_le_self (b := 2) (by norm_num) hx
    simpa using this
  have hhi : x < (2 : ℚ) ^ (Int.log 2 x + 1) := by
    have := Int.lt_zpow_succ_log_self (b := 2) (by norm_num) x
    simpa using this
  have h1 : ((2 ^ 52 : Int) : ℚ) ≤ x / 2 ^ (Int.log 2 x - 52) := by
    rw [le_div_iff₀ hu]
    push_cast
    rw [← two_zpow_split]
    exact hlo
  have h2 : x / 2 ^ (Int.log 2 x - 52) ≤ ((2 ^ 53 : Int) : ℚ) := by
    rw [div_le_iff₀ hu]
    push_cast
    rw [← two_zpow_split_succ]
    exact le_of_lt hhi
  have r1 := roundHalfEven_mono h1
  have r2 := roundHalfEven_mono h2
  rw [roundHalfEven_intCast] at r1 r2
  have hne : x ≠ 0 := ne_of_gt hx
  unfold round64
  rw [if_neg hne, abs_of_pos hx]
  constructor
  · rw [two_zpow_split]
    apply mul_le_mul_of_nonneg_right _ (le_of_lt hu)
    exact_mod_cast r1
  · rw [two_zpow_split_succ]
    apply mul_le_mul_of_nonneg_right _ (le_of_lt hu)
    exact_mod_cast r2

theorem round64_zero : round64 0 = 0 := by simp [round64]

theorem round64_nonneg {x : ℚ} (hx : 0 ≤ x) : 0 ≤ round64 x := by
  rcases lt_or_eq_of_le hx with h | h
  · exact le_trans (le_of_lt (zpow_pos (by norm_num) _)) (round64_bounds h).1
  · rw [← h, round64_zero]

theorem round64_mono_nonneg {x y : ℚ} (hx : 0 ≤ x) (hxy : x ≤ y) : round64 x ≤ round64 y := by
  rcases lt_or_eq_of_le hx with h | h
  · have hy : 0 < y := lt_of_lt_of_le h hxy
    have hlog : Int.log 2 x ≤ Int.log 2 y := Int.log_mono_right h hxy
    rcases lt_or_eq_of_le hlog with hlt | heq
    · have hstep : (2 : ℚ) ^ (Int.log 2 x + 1) ≤ 2 ^ Int.log 2 y :=
        zpow_le_zpow_right₀ (by norm_num) (by omega)
      exact le_trans (round64_bounds h).2 (le_trans hstep (round64_bounds hy).1)
    · have hu : (0 : ℚ) < 2 ^ (Int.log 2 y - 52) := zpow_pos (by norm_num) _
      unfold round64
      rw [if_neg (ne_of_gt h), if_neg (ne_of_gt hy), abs_of_pos h, abs_of_pos hy, heq]
      apply mul_le_mul_of_nonneg_right _ (le_of_lt hu)
      have hdiv : x / 2 ^ (Int.log 2 y - 52) ≤ y / 2 ^ (Int.log 2 y - 52) :=
        div_le_div_of_nonneg_right hxy (le_of_lt hu)
      exact_mod_cast roundHalfEven_mono hdiv
  · rw [← h, round64_zero]
    exact round64_nonneg (le_trans hx hxy)

theorem round64_of_mantissa (m k : Int) (h1 : 2 ^ 52 ≤ |m|) (h2 : |m| < 2 ^ 53) :
    round64 ((m : ℚ) * 2 ^ k) = (m : ℚ) * 2 ^ k := by
  have hk : (0 : ℚ) < 2 ^ k := zpow_pos (by norm_num) _
  have hm0 : m ≠ 0 := by
    intro h0; rw [h0] at h1; norm_num at h1
  have hne : (m : ℚ) * 2 ^ k ≠ 0 := mul_ne_zero (by exact_mod_cast hm0) (ne_of_gt hk)
  have habs : |(m : ℚ) * 2 ^ k| = (|m| : Int) * 2 ^ k := by
    rw [abs_mul, abs_of_pos hk]; push_cast; rfl
  have hpos : (0 : ℚ) < (|m| : Int) * 2 ^ k := by
    apply mul_pos _ hk
    have : 0 < |m| := abs_pos.2 hm0
    exact_mod_cast this
  have hlog : Int.log 2 (((|m| : Int) : ℚ) * 2 ^ k) = 52 + k := by
    apply le_antisymm
    · have : Int.log 2 (((|m| : Int) : ℚ) * 2 ^ k) < 53 + k := by
        rw [← Int.lt_zpow_iff_log_lt (by norm_num) hpos]
        rw [zpow_add₀ (by norm_num : ((2 : ℕ) : ℚ) ≠ 0)]
        apply mul_lt_mul_of_pos_right _ (by simpa using hk)
        have : ((|m| : Int) : ℚ) < ((2 ^ 53 : Int) : ℚ) := Int.cast_lt.2 h2
        norm_num at this ⊢
        exact this
      omega
    · rw [← Int.zpow_le_iff_le_log (by norm_num) hpos]
      rw [zpow_add₀ (by norm_num : ((2 : ℕ) : ℚ) ≠ 0)]
      apply mul_le_mul_of_nonneg_right _ (by simpa using le_of_lt hk)
      have : ((2 ^ 52 : Int) : ℚ) ≤ ((|m| : Int) : ℚ) := Int.cast_le.2 h1
      norm_num at this ⊢
      exact this
  unfold round64
  rw [if_neg hne, habs, hlog]
  have he : (52 + k - 52 : Int) = k := by omega
  rw [he, mul_div_assoc, div_self (ne_of_gt hk), mul_one, roundHalfEven_intCast]


theorem round64_one : round64 1 = 1 := by
  have h := round64_of_mantissa (2 ^ 52) (-52) (by norm_num) (by norm_num)
  norm_num at h
  exact h

theorem round64_two : round64 2 = 2 := by
  have h := round64_of_mantissa (2 ^ 52) (-51) (by norm_num) (by norm_num)
  norm_num at h
  exact h

theorem round64_hundred : round64 100 = 100 := by
  have h := round64_of_mantissa (100 * 2 ^ 46) (-46) (by norm_num) (by norm_num)
  norm_num at h
  exact h

theorem round64_two_hundred : round64 200 = 200 := by
  have h := round64_of_mantissa (200 * 2 ^ 45) (-45) (by norm_num) (by norm_num)
  norm_num at h
  exact h

theorem round64_neg_fifty : round64 (-50) = -50 := by
  have h := round64_of_mantissa (-(50 * 2 ^ 47)) (-47) (by norm_num) (by norm_num)
  norm_num at h
  exact h

theorem round64_neg_half : round64 (-(1 / 2)) = -(1 / 2) := by
  have h := round64_of_mantissa (-(2 ^ 52)) (-53) (by norm_num) (by norm_num)
  norm_num at h
  norm_num
  exact h

theorem CalculateProgress_above : CalculateProgress 200 100 = Float64.finite 200 := by
  simp only [CalculateProgress]
  norm_num [round64_two_hundred, round64_hundred, round64_two]

theorem CalculateProgress_below : CalculateProgress (-50) 100 = Float64.finite (-50) := by
  simp only [CalculateProgress]
  norm_num [round64_neg_fifty, round64_hundred, round64_neg_half]

theorem CalculateProgress_in_range (viewOffset duration : Int) (h0 : 0 ≤ viewOffset)
    (h1 : viewOffset ≤ duration) (hd : duration ≠ 0) :
    0 ≤ round64 (round64 (round64 viewOffset / round64 duration) * 100) ∧
    round64 (round64 (round64 viewOffset / round64 duration) * 100) ≤ 100 := by
  have hv : (0 : ℚ) ≤ (viewOffset : ℚ) := by exact_mod_cast h0
  have hvd : (viewOffset : ℚ) ≤ (duration : ℚ) := by exact_mod_cast h1
  have hd1 : (1 : ℚ) ≤ (duration : ℚ) := by
    have : (1 : Int) ≤ duration := by omega
    exact_mod_cast this
  have ha : 0 ≤ round64 viewOffset := round64_nonneg hv
  have hab : round64 viewOffset ≤ round64 duration := round64_mono_nonneg hv hvd
  have hb : 1 ≤ round64 duration := by
    have := round64_mono_nonneg (by norm_num : (0 : ℚ) ≤ 1) hd1
    rwa [round64_one] at this
  have hbpos : 0 < round64 duration := by linarith
  have hr0 : 0 ≤ round64 viewOffset / round64 duration := div_nonneg ha (le_of_lt hbpos)
  have hr1 : round64 viewOffset / round64 duration ≤ 1 := (div_le_one hbpos).2 hab
  have hq0 : 0 ≤ round64 (round64 viewOffset / round64 duration) := round64_nonneg hr0
  have hq1 : round64 (round64 viewOffset / round64 duration) ≤ 1 := by
    have := round64_mono_nonneg hr0 hr1
    rwa [round64_one] at this
  have hm0 : 0 ≤ round64 (round64 viewOffset / round64 duration) * 100 := by positivity
  have hm1 : round64 (round64 viewOffset / round64 duration) * 100 ≤ 100 := by linarith
  refine ⟨round64_nonneg hm0, ?_⟩
  have := round64_mono_nonneg hm0 hm1
  rwa [round64_hundred] at this

/-- C25, refuted on the code: `CalculateProgress(200, 100)` is 200, above 100, and
`CalculateProgress(-50, 100)` is -50, below 0. -/
theorem CalculateProgress_out_of_range :
    CalculateProgress 200 100 = Float64.finite 200 ∧
    Float64.le (CalculateProgress 200 100) (Float64.ofNat 100) = false ∧
    CalculateProgress (-50) 100 = Float64.finite (-50) ∧
    Float64.le (Float64.ofNat 0) (CalculateProgress (-50) 100) = false := by
  rw [CalculateProgress_above, CalculateProgress_below]
  decide

/-- C25 as amended: for `0 <= viewOffset <= duration` `CalculateProgress` returns a value
`p` with `0 <= p <= 100`; for all arguments it returns 0 when `duration` is 0 and
otherwise `viewOffset / duration × 100` as float64 arithmetic computes it. -/
theorem CalculateProgress_percentage (viewOffset duration : Int) (h0 : 0 ≤ viewOffset)
    (h1 : viewOffset ≤ duration) :
    (∃ p : ℚ, CalculateProgress viewOffset duration = Float64.finite p ∧ 0 ≤ p ∧ p ≤ 100 ∧
      Float64.le (Float64.ofNat 0) (CalculateProgress viewOffset duration) = true ∧
      Float64.le (CalculateProgress viewOffset duration) (Float64.ofNat 100) = true) ∧
    (∀ v : Int, CalculateProgress v 0 = Float64.ofNat 0) ∧
    (∀ v d : Int, d ≠ 0 →
      CalculateProgress v d =
        Float64.finite (round64 (round64 (round64 v / round64 d) * 100))) := by
  refine ⟨?_, fun v => by simp [CalculateProgress],
    fun v d hd => by simp [CalculateProgress, hd]⟩
  by_cases hd : duration = 0
  · refine ⟨0, by simp [CalculateProgress, hd, Float64.ofNat], le_refl 0, by norm_num, ?_, ?_⟩
    · simp [CalculateProgress, hd, Float64.ofNat, Float64.le]
    · simp [CalculateProgress, hd, Float64.ofNat, Float64.le]
  · obtain ⟨hlo, hhi⟩ := CalculateProgress_in_range viewOffset duration h0 h1 hd
    refine ⟨_, by simp only [CalculateProgress, if_neg hd], hlo, hhi, ?_, ?_⟩
    · simp only [CalculateProgress, if_neg hd, Float64.ofNat, Float64.le, decide_eq_true_eq]
      exact_mod_cast hlo
    · simp only [CalculateProgress, if_neg hd, Float64.ofNat, Float64.le, decide_eq_true_eq]
      exact_mod_cast hhi

/-- The amended C25 at `viewOffset = 45`, `duration = 100`. -/
theorem CalculateProgress_percentage_witness :
    ∃ p : ℚ, CalculateProgress 45 100 = Float64.finite p ∧ 0 ≤ p ∧ p ≤ 100 ∧
      Float64.le (Float64.ofNat 0) (CalculateProgress 45 100) = true ∧
      Float64.le (CalculateProgress 45 100) (Float64.ofNat 100) = true :=
  (CalculateProgress_percentage 45 100 (by decide) (by decide)).1

end misc

end Scroblarr
